import Mathlib

/-!
Verification of the VerilogSee pseudo-C to Verilog converter.

The repository has two near-duplicate compilation pipelines:
  * src/adHocRegex.py   - a token pipeline (class Parser): tokenize, build_ast,
    generate_verilog;
  * src/main.py         - a regex-rule pipeline (class PseudoCToVerilog):
    per-line rule matching (VariableDeclarationRule, FunctionDeclarationRule,
    AssignmentRule) followed by generation.

Both are embedded below over strings represented as lists of characters
(the sources operate on ASCII text).  Python behaviours that matter are
modelled faithfully: str.split with a separator, str.split() on whitespace,
str.strip, str.rstrip(','), int(...) conversion (sign, underscores,
surrounding whitespace), dict insertion order with in-place overwrite,
list.index first-match semantics, and the backtracking semantics of the
re module for the concrete patterns the source uses.

Fallible code returns a result type with an explicit error payload; loops
whose Python counterparts are `while` loops are given fuel, with a separate
fuel-free twin used in proofs where needed.
-/

/-! ## String prelude: Python-faithful primitives over lists of characters -/

abbrev Str := List Char

set_option maxRecDepth 40000 in
/-- Convert a Lean string literal to the character-list representation. -/
def lit (s : String) : Str := s.toList

/-- Python str.isspace for the ASCII whitespace characters (space, tab,
newline, carriage return, vertical tab, form feed); also the set matched by
the regex class \s in ASCII mode. -/
def pyIsSpace (c : Char) : Bool :=
  c = ' ' || c = '\t' || c = '\n' || c = '\r' || c = '\x0b' || c = '\x0c'

/-- The regex class \w for ASCII input: letters, digits, underscore. -/
def isWordC (c : Char) : Bool := c.isAlphanum || c = '_'

/-- Does the pattern occur at the head of the string? -/
def startsWithL : Str → Str → Bool
  | [], _ => true
  | _ :: _, [] => false
  | a :: as, b :: bs => a = b && startsWithL as bs

/-- Python `c in s` for a single character. -/
def containsChar (c : Char) (s : Str) : Bool := s.any (fun d => d = c)

/-- Python substring containment `pat in s`. -/
def containsSub (pat : Str) : Str → Bool
  | [] => startsWithL pat []
  | c :: t => startsWithL pat (c :: t) || containsSub pat t

/-- Number of positions at which the pattern occurs (used only in
claim-side statements). -/
def countSub (pat : Str) : Str → Nat
  | [] => if startsWithL pat [] then 1 else 0
  | c :: t => (if startsWithL pat (c :: t) then 1 else 0) + countSub pat t

/-- Number of occurrences of a character. -/
def countChar (c : Char) (s : Str) : Nat := (s.filter (fun d => d = c)).length

/-- Python str.strip(): remove leading and trailing whitespace. -/
def pyStrip (s : Str) : Str :=
  ((s.dropWhile pyIsSpace).reverse.dropWhile pyIsSpace).reverse

/-- Python str.rstrip(','): remove all trailing commas. -/
def pyRstripComma (s : Str) : Str :=
  (s.reverse.dropWhile (fun c => c = ',')).reverse

/-- Prepend a character to the first chunk of a chunk list. -/
def consHead (c : Char) : List Str → List Str
  | [] => [[c]]
  | a :: t => (c :: a) :: t

/-- Fuelled worker for Python str.split(sep) with a non-empty separator:
left-to-right scan, cutting at each leftmost non-overlapping occurrence. -/
def splitF (sep : Str) : Nat → Str → List Str
  | 0, s => [s]
  | fuel + 1, s =>
    if startsWithL sep s then
      [] :: splitF sep fuel (s.drop sep.length)
    else
      match s with
      | [] => [[]]
      | c :: t => consHead c (splitF sep fuel t)

/-- Python str.split(sep).  A split with an empty separator is a ValueError
in Python and never occurs in the source; we return [s] in that case. -/
def splitOn (sep : Str) (s : Str) : List Str :=
  if sep.isEmpty then [s] else splitF sep (s.length + 1) s

/-- Python str.split() with no separator: split on whitespace runs,
discarding empty pieces. -/
def pySplitWSGo (cur : Str) : Str → List Str
  | [] => if cur.isEmpty then [] else [cur.reverse]
  | c :: t =>
    if pyIsSpace c then
      if cur.isEmpty then pySplitWSGo [] t else cur.reverse :: pySplitWSGo [] t
    else pySplitWSGo (c :: cur) t

def pySplitWS (s : Str) : List Str := pySplitWSGo [] s

/-- Digit value of an ASCII digit character. -/
def digitVal (c : Char) : Nat := c.toNat - 48

/-- Accumulating scan over the digits of a Python integer literal body:
digits with single underscores allowed strictly between digits. -/
def pyDigitsAux : Nat → Str → Option Nat
  | acc, [] => some acc
  | acc, c :: rest =>
    if c = '_' then
      match rest with
      | [] => none
      | c2 :: rest2 =>
        if c2.isDigit then pyDigitsAux (acc * 10 + digitVal c2) rest2 else none
    else if c.isDigit then pyDigitsAux (acc * 10 + digitVal c) rest else none

/-- The unsigned digit part of a Python int literal: non-empty, starts with a
digit, underscores only between digits. -/
def pyNatPart : Str → Option Nat
  | [] => none
  | c :: rest => if c.isDigit then pyDigitsAux (digitVal c) rest else none

/-- Python int(str): strip surrounding whitespace, optional single sign,
then a digit sequence with optional single underscores between digits.
Returns none where Python raises ValueError. -/
def pyInt (s : Str) : Option Int :=
  match pyStrip s with
  | '+' :: rest => (pyNatPart rest).map (fun n => (n : Int))
  | '-' :: rest => (pyNatPart rest).map (fun n => -(n : Int))
  | rest => (pyNatPart rest).map (fun n => (n : Int))

/-- Value of an all-digit string (claim-side companion of pyInt). -/
def natOfDigits (s : Str) : Nat := s.foldl (fun a c => a * 10 + digitVal c) 0

/-- Decimal digit character. -/
def digitChar (d : Nat) : Char := Char.ofNat (48 + d)

def natToStrGo : Nat → Nat → Str → Str
  | 0, _, acc => acc
  | fuel + 1, n, acc =>
    if n < 10 then digitChar n :: acc
    else natToStrGo fuel (n / 10) (digitChar (n % 10) :: acc)

/-- Decimal rendering of a natural number (Python str(int) for n >= 0). -/
def natToStr (n : Nat) : Str := natToStrGo (n + 1) n []

/-- Python str(int), including the minus sign. -/
def intToStr (i : Int) : Str :=
  if i < 0 then '-' :: natToStr i.natAbs else natToStr i.toNat

/-- Python sep.join(parts). -/
def joinWith (sep : Str) : List Str → Str
  | [] => []
  | [a] => a
  | a :: b :: t => a ++ sep ++ joinWith sep (b :: t)

/-- Python list.index: index of the first element equal to x (the sources
call it only on members, so the out-of-list value is irrelevant). -/
def firstIdx {α : Type} [DecidableEq α] (x : α) : List α → Nat
  | [] => 0
  | a :: t => if a = x then 0 else firstIdx x t + 1

/-- Python dict assignment d[k] = v: overwrite in place if the key exists
(keeping its position in insertion order), else append. -/
def dput {α : Type} (k : Str) (v : α) : List (Str × α) → List (Str × α)
  | [] => [(k, v)]
  | (k2, v2) :: t => if k2 = k then (k, v) :: t else (k2, v2) :: dput k v t

/-- Python dict lookup (first, i.e. unique, matching key). -/
def dget {α : Type} (k : Str) : List (Str × α) → Option α
  | [] => none
  | (k2, v2) :: t => if k2 = k then some v2 else dget k t

/-- Concatenation of the blocks produced for each list element (the Python
idiom `for x in xs: out.extend(f(x))`). -/
def concatMap {α β : Type} (f : α → List β) (l : List α) : List β :=
  (l.map f).flatten

/-! ## Shared data model (identical dataclasses in src/main.py and
src/adHocRegex.py) -/

inductive SyncMode where
  | concurrent
  | sequential
deriving DecidableEq

/-- TypeInfo dataclass: base_type, width, optional sync_mode.  The width is
a Python int, so it is embedded as Int (int("-3") succeeds in Python). -/
structure TypeInfo where
  base_type : Str
  width : Int
  sync_mode : Option SyncMode := none
deriving DecidableEq

structure Variable where
  name : Str
  type_info : TypeInfo
deriving DecidableEq

/-- Function dataclass.  The two files store different statement shapes in
the `statements` field (raw strings in main.py, tagged assignment pairs in
adHocRegex.py), hence the type parameter. -/
structure Function (σ : Type) where
  name : Str
  parameters : List Variable
  return_type : Option TypeInfo
  statements : List σ
  default_sync_mode : SyncMode := SyncMode.concurrent
deriving DecidableEq

/-- The error payloads of the ValueError-class exceptions the source can
raise: an invalid sync-mode literal (SyncMode(...)), a width that int(...)
rejects, a type part whose split(".") does not unpack into two values, and
a function declaration without a name. -/
inductive PErr where
  | badSync (s : Str)
  | badInt (s : Str)
  | unpack (s : Str)
  | missingFuncName
deriving DecidableEq

/-- Result of a fallible, fuelled computation.  fuelOut is the (never
reached at the fuel the wrappers supply) fuel-exhaustion marker. -/
inductive Res (α : Type) where
  | ok (a : α)
  | err (e : PErr)
  | fuelOut
deriving DecidableEq

def Res.bind {α β : Type} : Res α → (α → Res β) → Res β
  | .ok a, f => f a
  | .err e, _ => .err e
  | .fuelOut, _ => .fuelOut

instance : Monad Res where
  pure := Res.ok
  bind := Res.bind

def Res.isErr {α : Type} : Res α → Bool
  | .err _ => true
  | _ => false

def Res.isOk {α : Type} : Res α → Bool
  | .ok _ => true
  | _ => false

/-- SyncMode(value): the enum constructor, raising on anything but the two
recognized literal strings. -/
def syncModeOf (s : Str) : Res SyncMode :=
  if s = lit ("concurrent") then .ok SyncMode.concurrent
  else if s = lit ("sequential") then .ok SyncMode.sequential
  else .err (.badSync s)

/-- The base-and-width phase of TypeInfo.parse (lines 24-30 of the
method), run after the sync mode has been determined. -/
def TypeInfo.parseWithSync (type_part : Str) (sync : Option SyncMode) : Res TypeInfo :=
  if containsChar '.' type_part then
    match splitOn (lit (".")) type_part with
    | [b, w] =>
      match pyInt w with
      | some n => .ok ⟨b, n, sync⟩
      | none => .err (.badInt w)
    | _ => .err (.unpack type_part)
  else .ok ⟨type_part, 32, sync⟩

/-- TypeInfo.parse (identical in src/main.py lines 17-32 and
src/adHocRegex.py lines 16-31):
    parts = type_str.split("::")
    type_part = parts[0]
    sync_mode = SyncMode(parts[1]) if len(parts) > 1 else None
    if "." in type_part:
        base_type, width = type_part.split(".")   -- unpack may raise
        width = int(width)                        -- int() may raise
    else:
        base_type, width = type_part, 32
-/
def TypeInfo.parse (s : Str) : Res TypeInfo :=
  if 1 < (splitOn (lit ("::")) s).length then
    match syncModeOf ((splitOn (lit ("::")) s).getD 1 []) with
    | .ok m => TypeInfo.parseWithSync ((splitOn (lit ("::")) s).headD []) (some m)
    | .err e => .err e
    | .fuelOut => .fuelOut
  else TypeInfo.parseWithSync ((splitOn (lit ("::")) s).headD []) none

/-! ## Token pipeline: src/adHocRegex.py, class Parser -/

inductive TokenType where
  | TYPE
  | IDENTIFIER
  | OPERATOR
  | DELIMITER
  | KEYWORD
  | NUMBER
deriving DecidableEq

structure Token where
  type : TokenType
  value : Str
  line : Nat
  column : Nat
deriving DecidableEq

/-- A parsed assignment statement ('assignment', target, expression): the
tag is always the literal 'assignment', so only the pair is kept. -/
abbrev AStmt := Str × Str

namespace Parser

/-- Bounds-checked token access (every Python index into the token list is
guarded by a length comparison in the source). -/
def tokAt (ts : List Token) (i : Nat) : Token :=
  ts.getD i ⟨TokenType.OPERATOR, [], 0, 0⟩

/-- The shared compilation context dictionary built in Parser.__init__. -/
structure ACtx where
  vars : List (Str × Variable) := []
  functions : List (Str × Function AStmt) := []
  sequential_calls : List (Function AStmt × Str × Str) := []
  call_counter : Nat := 0
  in_always_block : Bool := false
deriving DecidableEq

def actx0 : ACtx := {}

/-- The AST dictionary built by build_ast. -/
structure Ast where
  vars : List (Str × Variable) := []
  functions : List (Str × Function AStmt) := []
  statements : List AStmt := []
deriving DecidableEq

/-- Parser._check_type_declaration. -/
def check_type_declaration (line : Str) (col : Nat) : Bool :=
  [lit ("int"), lit ("signed"), lit ("unsigned")].any fun p =>
    startsWithL p (line.drop col) &&
    (let ni := col + p.length
     decide (line.length ≤ ni) || pyIsSpace (line.getD ni ' ')
       || containsChar (line.getD ni ' ') (lit (".::")))

/-- Parser._extract_type: longest run of characters that are not whitespace
and not statement delimiters. -/
def extract_type (line : Str) (col : Nat) : Str × Nat :=
  let run := (line.drop col).takeWhile
    (fun c => !(pyIsSpace c) && !(containsChar c (lit (";,()\x7b\x7d"))))
  (run, col + run.length)

/-- Parser._check_keyword. -/
def check_keyword (line : Str) (col : Nat) : Option (Str × Nat) :=
  [lit ("function"), lit ("if"), lit ("else"), lit ("for"),
   lit ("while"), lit ("return")].findSome? fun k =>
    if startsWithL k (line.drop col) &&
       (let ni := col + k.length
        decide (line.length ≤ ni) || pyIsSpace (line.getD ni ' ')
          || containsChar (line.getD ni ' ') (lit ("(\x7b;:")))
    then some (k, col + k.length) else none

/-- Parser._extract_identifier. -/
def extract_identifier (line : Str) (col : Nat) : Str × Nat :=
  let run := (line.drop col).takeWhile (fun c => c.isAlphanum || c = '_')
  (run, col + run.length)

/-- Parser._extract_number. -/
def extract_number (line : Str) (col : Nat) : Str × Nat :=
  let run := (line.drop col).takeWhile (fun c => c.isDigit)
  (run, col + run.length)

/-- One line of Parser.tokenize: the while-loop over column positions.
Every branch advances the column, so fuel of line length + 1 suffices;
classification precedence follows the source: whitespace, type, keyword,
identifier, operator (two-character operators preferred), delimiter,
number, and finally silent skip of anything else. -/
def tokLineLoop : Nat → Str → Nat → Nat → List Token → List Token
  | 0, _, _, _, acc => acc
  | fuel + 1, line, lineIdx, col, acc =>
    if line.length ≤ col then acc
    else
      let c := line.getD col ' '
      if pyIsSpace c then tokLineLoop fuel line lineIdx (col + 1) acc
      else if check_type_declaration line col then
        let r := extract_type line col
        tokLineLoop fuel line lineIdx r.2
          (acc ++ [⟨TokenType.TYPE, r.1, lineIdx, col⟩])
      else
        match check_keyword line col with
        | some kn =>
          tokLineLoop fuel line lineIdx kn.2
            (acc ++ [⟨TokenType.KEYWORD, kn.1, lineIdx, col⟩])
        | none =>
          if c.isAlpha || c = '_' then
            let r := extract_identifier line col
            tokLineLoop fuel line lineIdx r.2
              (acc ++ [⟨TokenType.IDENTIFIER, r.1, lineIdx, col⟩])
          else if containsChar c (lit ("=+-*/&|^<>")) then
            if decide (col + 1 < line.length) &&
               decide ([c, line.getD (col + 1) ' '] ∈
                 [lit ("<="), lit (">="), lit ("=="), lit ("!=")]) then
              tokLineLoop fuel line lineIdx (col + 2)
                (acc ++ [⟨TokenType.OPERATOR, [c, line.getD (col + 1) ' '], lineIdx, col⟩])
            else
              tokLineLoop fuel line lineIdx (col + 1)
                (acc ++ [⟨TokenType.OPERATOR, [c], lineIdx, col⟩])
          else if containsChar c (lit ("\x7b\x7d();,")) then
            tokLineLoop fuel line lineIdx (col + 1)
              (acc ++ [⟨TokenType.DELIMITER, [c], lineIdx, col⟩])
          else if c.isDigit then
            let r := extract_number line col
            tokLineLoop fuel line lineIdx r.2
              (acc ++ [⟨TokenType.NUMBER, r.1, lineIdx, col⟩])
          else tokLineLoop fuel line lineIdx (col + 1) acc

/-- Parser.tokenize: lines whose strip() is empty produce no tokens; the
other lines are scanned left to right and their tokens concatenated. -/
def tokenize (lines : List Str) : List Token :=
  concatMap
    (fun p =>
      if (pyStrip p.2).isEmpty then []
      else tokLineLoop (p.2.length + 1) p.2 p.1 0 [])
    lines.enum

/-- Parser._tokens_to_expression: keep identifiers, operators, numbers and
parenthesis delimiters (the source tests token.value in "()", a substring
test), join with single spaces. -/
def tokens_to_expression (toks : List Token) : Str :=
  joinWith (lit (" "))
    (toks.filterMap fun t =>
      if t.type = TokenType.IDENTIFIER then some t.value
      else if t.type = TokenType.OPERATOR then some t.value
      else if t.type = TokenType.NUMBER then some t.value
      else if t.type = TokenType.DELIMITER && containsSub t.value (lit ("()")) then
        some t.value
      else none)

/-- Parser._parse_function, sync-mode step: the optional `::syncmode`
suffix (delimiter `::` then identifier); SyncMode(...) may raise. -/
def pfSync (ts : List Token) (i : Nat) : Res (SyncMode × Nat) :=
  if i + 2 < ts.length ∧ (tokAt ts (i + 1)).type = TokenType.DELIMITER
     ∧ (tokAt ts (i + 1)).value = lit ("::")
     ∧ (tokAt ts (i + 2)).type = TokenType.IDENTIFIER then
    match syncModeOf (tokAt ts (i + 2)).value with
    | .ok m => .ok (m, i + 3)
    | .err e => .err e
    | .fuelOut => .fuelOut
  else .ok (SyncMode.concurrent, i + 1)

/-- Parser._parse_function, return-type step: optional TYPE token. -/
def pfRet (ts : List Token) (i : Nat) : Res (Option TypeInfo × Nat) :=
  if i < ts.length ∧ (tokAt ts i).type = TokenType.TYPE then
    match TypeInfo.parse (tokAt ts i).value with
    | .ok ti => .ok (some ti, i + 1)
    | .err e => .err e
    | .fuelOut => .fuelOut
  else .ok (none, i)

/-- Parser._parse_function, name step: mandatory identifier, raising
ValueError("Expected function name") when absent. -/
def pfName (ts : List Token) (i : Nat) : Res (Str × Nat) :=
  if i < ts.length ∧ (tokAt ts i).type = TokenType.IDENTIFIER then
    .ok ((tokAt ts i).value, i + 1)
  else .err .missingFuncName

/-- Parser._parse_function, parameter-list loop body: TYPE then an optional
following IDENTIFIER (a parameter without one is dropped without error),
then an optional comma; any other token is skipped. -/
def pfParamsLoop : Nat → List Token → Nat → List Variable →
    Res (Nat × List Variable)
  | fuel, ts, i, acc =>
    if i < ts.length ∧ ¬((tokAt ts i).type = TokenType.DELIMITER
        ∧ (tokAt ts i).value = lit (")")) then
      match fuel with
      | 0 => .fuelOut
      | f + 1 =>
        if (tokAt ts i).type = TokenType.TYPE then
          match TypeInfo.parse (tokAt ts i).value with
          | .ok pt =>
            if i + 1 < ts.length ∧ (tokAt ts (i + 1)).type = TokenType.IDENTIFIER
            then
              pfParamsLoop f ts
                (if i + 2 < ts.length ∧ (tokAt ts (i + 2)).type = TokenType.DELIMITER
                    ∧ (tokAt ts (i + 2)).value = lit (",")
                 then i + 3 else i + 2)
                (acc ++ [⟨(tokAt ts (i + 1)).value, pt⟩])
            else
              pfParamsLoop f ts
                (if i + 1 < ts.length ∧ (tokAt ts (i + 1)).type = TokenType.DELIMITER
                    ∧ (tokAt ts (i + 1)).value = lit (",")
                 then i + 2 else i + 1)
                acc
          | .err e => .err e
          | .fuelOut => .fuelOut
        else pfParamsLoop f ts (i + 1) acc
    else .ok (i, acc)

/-- Parser._parse_function, parameter list: only entered on an opening
parenthesis (otherwise no parameters and no error). -/
def pfParams (ts : List Token) (i : Nat) : Res (Nat × List Variable) :=
  if i < ts.length ∧ (tokAt ts i).type = TokenType.DELIMITER
     ∧ (tokAt ts i).value = lit ("(") then
    match pfParamsLoop (ts.length + 1) ts (i + 1) [] with
    | .ok r => .ok (r.1 + 1, r.2)
    | .err e => .err e
    | .fuelOut => .fuelOut
  else .ok (i, [])

/-- Parser._parse_function, body: expression-token collector, stopping at
the `;` delimiter. -/
def pfBodyExprLoop : Nat → List Token → Nat → List Token →
    Res (Nat × List Token)
  | fuel, ts, i, acc =>
    if i < ts.length ∧ ¬((tokAt ts i).type = TokenType.DELIMITER
        ∧ (tokAt ts i).value = lit (";")) then
      match fuel with
      | 0 => .fuelOut
      | f + 1 => pfBodyExprLoop f ts (i + 1) (acc ++ [tokAt ts i])
    else .ok (i, acc)

/-- Parser._parse_function, body loop: scan for IDENTIFIER = ... ;
assignments until the closing brace; everything else is skipped. -/
def pfBodyLoop : Nat → List Token → Nat → List AStmt → Res (Nat × List AStmt)
  | fuel, ts, i, acc =>
    if i < ts.length ∧ ¬((tokAt ts i).type = TokenType.DELIMITER
        ∧ (tokAt ts i).value = lit ("\x7d")) then
      match fuel with
      | 0 => .fuelOut
      | f + 1 =>
        if (tokAt ts i).type = TokenType.IDENTIFIER ∧ i + 1 < ts.length
           ∧ (tokAt ts (i + 1)).type = TokenType.OPERATOR
           ∧ (tokAt ts (i + 1)).value = lit ("=") then
          match pfBodyExprLoop (ts.length + 1) ts (i + 2) [] with
          | .ok r =>
            pfBodyLoop f ts (r.1 + 1)
              (acc ++ [((tokAt ts i).value, tokens_to_expression r.2)])
          | .err e => .err e
          | .fuelOut => .fuelOut
        else pfBodyLoop f ts (i + 1) acc
    else .ok (i, acc)

/-- Parser._parse_function, body: only entered on an opening brace. -/
def pfBody (ts : List Token) (i : Nat) : Res (Nat × List AStmt) :=
  if i < ts.length ∧ (tokAt ts i).type = TokenType.DELIMITER
     ∧ (tokAt ts i).value = lit ("\x7b") then
    match pfBodyLoop (ts.length + 1) ts (i + 1) [] with
    | .ok r => .ok (r.1 + 1, r.2)
    | .err e => .err e
    | .fuelOut => .fuelOut
  else .ok (i, [])

/-- Parser._parse_function: the straight-line composition of the five
blocks of the source method. -/
def parse_function (ts : List Token) (start : Nat) : Res (Nat × Function AStmt) := do
  let s1 ← pfSync ts start
  let s2 ← pfRet ts s1.2
  let s3 ← pfName ts s2.2
  let s4 ← pfParams ts s3.2
  let s5 ← pfBody ts s4.1
  pure (s5.1, ⟨s3.1, s4.2, s2.1, s5.2, s1.1⟩)

/-- Expression-token collector of the top-level assignment production:
stops at any DELIMITER token. -/
def topExprLoop : Nat → List Token → Nat → List Token → Res (Nat × List Token)
  | fuel, ts, i, acc =>
    if i < ts.length ∧ ¬((tokAt ts i).type = TokenType.DELIMITER) then
      match fuel with
      | 0 => .fuelOut
      | f + 1 => topExprLoop f ts (i + 1) (acc ++ [tokAt ts i])
    else .ok (i, acc)

/-- Parser.build_ast main loop: variable declaration (TYPE IDENTIFIER,
cursor + 3), function declaration (keyword function), top-level assignment
(IDENTIFIER = ... up to any delimiter), otherwise skip one token. -/
def buildLoop : Nat → List Token → Nat → Ast → ACtx → Res (Ast × ACtx)
  | fuel, ts, i, ast, ctx =>
    if i < ts.length then
      match fuel with
      | 0 => .fuelOut
      | f + 1 =>
        if (tokAt ts i).type = TokenType.TYPE ∧ i + 1 < ts.length
           ∧ (tokAt ts (i + 1)).type = TokenType.IDENTIFIER then
          match TypeInfo.parse (tokAt ts i).value with
          | .ok ti =>
            buildLoop f ts (i + 3)
              { ast with
                vars := dput (tokAt ts (i + 1)).value
                  (Variable.mk (tokAt ts (i + 1)).value ti) ast.vars }
              { ctx with
                vars := dput (tokAt ts (i + 1)).value
                  (Variable.mk (tokAt ts (i + 1)).value ti) ctx.vars }
          | .err e => .err e
          | .fuelOut => .fuelOut
        else if (tokAt ts i).type = TokenType.KEYWORD
           ∧ (tokAt ts i).value = lit ("function") then
          match parse_function ts i with
          | .ok r =>
            buildLoop f ts r.1
              { ast with functions := dput r.2.name r.2 ast.functions }
              { ctx with functions := dput r.2.name r.2 ctx.functions }
          | .err e => .err e
          | .fuelOut => .fuelOut
        else if (tokAt ts i).type = TokenType.IDENTIFIER ∧ i + 1 < ts.length
           ∧ (tokAt ts (i + 1)).type = TokenType.OPERATOR
           ∧ (tokAt ts (i + 1)).value = lit ("=") then
          match topExprLoop (ts.length + 1) ts (i + 2) [] with
          | .ok r =>
            buildLoop f ts (r.1 + 1)
              { ast with statements :=
                  ast.statements ++ [((tokAt ts i).value, tokens_to_expression r.2)] }
              ctx
          | .err e => .err e
          | .fuelOut => .fuelOut
        else buildLoop f ts (i + 1) ast ctx
    else .ok (ast, ctx)

/-- Parser.build_ast. -/
def build_ast (ts : List Token) (ctx : ACtx) : Res (Ast × ACtx) :=
  buildLoop (ts.length + 1) ts 0 {} ctx

/-- Parser._convert_expression: the source returns the expression
unchanged ("Simple expression conversion for now"). -/
def convert_expression (e : Str) : Str := e

/-- Parser._generate_variable_declaration (the identical method also
appears in main.py): reg [width-1:0] name, signed-qualified iff the base
type is the string "signed". -/
def generate_variable_declaration (v : Variable) : Str :=
  let tstr := if v.type_info.base_type = lit ("signed") then lit ("signed ") else []
  lit ("    reg ") ++ tstr ++ lit ("[") ++ intToStr (v.type_info.width - 1)
    ++ lit (":0] ") ++ v.name ++ lit (";")

end Parser

/-! ## Code generation shared by both files -/

/-- Apply rstrip(',') to the last element of a line list (the Python
statement instance_code[-1] = instance_code[-1].rstrip(',')). -/
def rstripLast : List Str → List Str
  | [] => []
  | [a] => [pyRstripComma a]
  | a :: b :: t => a :: rstripLast (b :: t)

/-- The Python idiom `args.split(',') if args else []` used by both the
call resolver and the instance generator. -/
def argSplit (args : Str) : List Str :=
  if args.isEmpty then [] else splitOn (lit (",")) args

/-- The positional binding `arg_list[i].strip() if i < len(arg_list)
else '0'` of _generate_sequential_instance. -/
def bindArg (arg_list : List Str) (i : Nat) : Str :=
  if i < arg_list.length then pyStrip (arg_list.getD i []) else lit ("0")

/-- _generate_sequential_instance (identical in src/main.py lines 350-373
and src/adHocRegex.py lines 439-462): comment line, module-instance header,
clock and reset connections, one positional port binding per declared
parameter (the literal 0 where the argument list is too short), the result
binding when a return type exists, a comma stripped from the last port
line, and the closing lines. -/
def seqInstHead {σ : Type} (func : Function σ) (instance_name : Str) : List Str :=
  [lit ("    // Sequential function instance: ") ++ instance_name,
   lit ("    ") ++ func.name ++ lit (" ") ++ instance_name ++ lit (" ("),
   lit ("        .clk(clk),"),
   lit ("        .rst(rst),")]

def seqInstParamLines {σ : Type} (func : Function σ) (args : Str) : List Str :=
  func.parameters.enum.map (fun p =>
    lit ("        .") ++ p.2.name ++ lit ("(") ++ bindArg (argSplit args) p.1
      ++ lit ("),"))

def seqInstResultLines {σ : Type} (func : Function σ) (instance_name : Str) :
    List Str :=
  if func.return_type.isSome then
    [lit ("        .result(") ++ instance_name ++ lit ("_result)")]
  else []

def generate_sequential_instance {σ : Type} (func : Function σ)
    (instance_name : Str) (args : Str) : List Str :=
  rstripLast (seqInstHead func instance_name ++ seqInstParamLines func args
      ++ seqInstResultLines func instance_name)
    ++ [lit ("    );"), []]

/-- The generator loop `for func, instance_name, args in
context['sequential_calls']: verilog_code.extend(...)`: one block per
pending record, in list order. -/
def instanceSection {σ : Type} (calls : List (Function σ × Str × Str)) : List Str :=
  concatMap (fun r => generate_sequential_instance r.1 r.2.1 r.2.2) calls

namespace Parser

/-- Parser._generate_function_module: module header with clock, reset, one
input port per parameter, an output register named result when a return
type exists; body emits one non-blocking assignment per recorded
statement (the statement tag is always 'assignment'). -/
def generate_function_module (func : Function AStmt) : List Str :=
  let ports :=
    [lit ("input clk"), lit ("input rst")]
    ++ func.parameters.map (fun p =>
        lit ("input ")
        ++ (if p.type_info.base_type = lit ("signed") then lit ("signed ") else [])
        ++ lit ("[") ++ intToStr (p.type_info.width - 1) ++ lit (":0] ") ++ p.name)
    ++ (match func.return_type with
        | some rt =>
          [lit ("output reg ")
           ++ (if rt.base_type = lit ("signed") then lit ("signed ") else [])
           ++ lit ("[") ++ intToStr (rt.width - 1) ++ lit (":0] result")]
        | none => [])
  [lit ("module ") ++ func.name ++ lit ("(")]
  ++ [lit ("    ") ++ joinWith (lit (",\n    ")) ports]
  ++ [lit (");"), []]
  ++ [lit ("    always @(posedge clk or posedge rst) begin"),
      lit ("        if (rst) begin")]
  ++ (if func.return_type.isSome then [lit ("            result <= 0;")] else [])
  ++ [lit ("        end else begin")]
  ++ func.statements.map (fun s =>
      lit ("            ") ++ s.1 ++ lit (" <= ") ++ convert_expression s.2 ++ lit (";"))
  ++ [lit ("        end"), lit ("    end"), [], lit ("endmodule"), []]

/-- Parser.generate_verilog: fixed emission order (header, register
declarations, reset clears, statement updates, function submodules,
pending sequential instances, module close).  Returned together with the
context (whose in_always_block flag is set and then cleared). -/
def generate_verilog (ast : Ast) (ctx : ACtx) : Str × ACtx :=
  let code :=
    [lit ("module main("), lit ("    input clk,"), lit ("    input rst"),
     lit (");"), []]
    ++ ast.vars.map (fun kv => generate_variable_declaration kv.2)
    ++ [[]]
    ++ [lit ("    always @(posedge clk or posedge rst) begin"),
        lit ("        if (rst) begin")]
    ++ ast.vars.map (fun kv => lit ("            ") ++ kv.1 ++ lit (" <= 0;"))
    ++ [lit ("        end else begin")]
    ++ ast.statements.map (fun s =>
        lit ("            ") ++ s.1 ++ lit (" <= ") ++ convert_expression s.2 ++ lit (";"))
    ++ [lit ("        end"), lit ("    end"), []]
    ++ concatMap (fun kv => generate_function_module kv.2) ast.functions
    ++ instanceSection ctx.sequential_calls
    ++ [lit ("endmodule")]
  (joinWith (lit ("\n")) code, { ctx with in_always_block := false })

/-- Parser.parse_code, with the context state of the Parser object made
explicit (initialized in __init__, threaded through and returned). -/
def parse_code_ctx (code : Str) (ctx : ACtx) : Res (Str × ACtx) :=
  let lines := splitOn (lit ("\n")) (pyStrip code)
  let toks := tokenize lines
  match build_ast toks ctx with
  | .ok r =>
    let g := generate_verilog r.1 r.2
    .ok (g.1, g.2)
  | .err e => .err e
  | .fuelOut => .fuelOut

/-- Parser.parse_code on a fresh Parser object. -/
def parse_code (code : Str) : Res Str :=
  match parse_code_ctx code actx0 with
  | .ok r => .ok r.1
  | .err e => .err e
  | .fuelOut => .fuelOut

end Parser

/-! ## A small backtracking regex engine for the concrete patterns of
src/main.py.  Only the constructs those patterns use are represented:
character literals, the classes \w \d \s [^;] and . (no-newline), greedy
plus/star of a class, the lazy star of `.*?`, greedy optional groups and
capturing groups.  The matcher follows the re module's backtracking
order (greedy repetitions try longest first, lazy shortest first,
optional groups try the present branch first); fuel bounds the depth of
the search and is, at the size used, never exhausted on the inputs below. -/

inductive CC where
  | w
  | d
  | s
  | dotNN
  | nonSemi

def CC.test : CC → Char → Bool
  | .w, c => isWordC c
  | .d, c => c.isDigit
  | .s, c => pyIsSpace c
  | .dotNN, c => decide (c ≠ '\n')
  | .nonSemi, c => decide (c ≠ ';')

inductive RE where
  | ch (c : Char)
  | rep1g (k : CC)
  | rep0g (k : CC)
  | rep0l (k : CC)
  | opt (rs : List RE)
  | grp (n : Nat) (rs : List RE)

abbrev Caps := List (Nat × Str)

mutual

def mrun : Nat → List RE → Str → Caps → (Caps → Str → Option (Caps × Str)) →
    Option (Caps × Str)
  | 0, _, _, _, _ => none
  | _ + 1, [], s, caps, k => k caps s
  | fuel + 1, r :: rs, s, caps, k =>
    match r with
    | .ch c =>
      match s with
      | c2 :: t => if c2 = c then mrun fuel rs t caps k else none
      | [] => none
    | .rep1g kk =>
      match s with
      | c2 :: t => if kk.test c2 then repG fuel kk rs t caps k else none
      | [] => none
    | .rep0g kk => repG fuel kk rs s caps k
    | .rep0l kk => repL fuel kk rs s caps k
    | .opt sub =>
      match mrun fuel (sub ++ rs) s caps k with
      | some res => some res
      | none => mrun fuel rs s caps k
    | .grp n sub =>
      mrun fuel sub s caps (fun caps2 s2 =>
        mrun fuel rs s2 ((n, s.take (s.length - s2.length)) :: caps2) k)

def repG : Nat → CC → List RE → Str → Caps →
    (Caps → Str → Option (Caps × Str)) → Option (Caps × Str)
  | 0, _, _, _, _, _ => none
  | fuel + 1, kk, rs, s, caps, k =>
    match s with
    | c :: t =>
      if kk.test c then
        match repG fuel kk rs t caps k with
        | some res => some res
        | none => mrun fuel rs s caps k
      else mrun fuel rs s caps k
    | [] => mrun fuel rs [] caps k

def repL : Nat → CC → List RE → Str → Caps →
    (Caps → Str → Option (Caps × Str)) → Option (Caps × Str)
  | 0, _, _, _, _, _ => none
  | fuel + 1, kk, rs, s, caps, k =>
    match mrun fuel rs s caps k with
    | some res => some res
    | none =>
      match s with
      | c :: t => if kk.test c then repL fuel kk rs t caps k else none
      | [] => none

end

/-- re.match: anchored at the start; returns the captures and the
remaining (unmatched) suffix of the first match in backtracking order. -/
def reMatch (pat : List RE) (s : Str) : Option (Caps × Str) :=
  mrun 10000 pat s [] (fun caps rest => some (caps, rest))

/-- match.group(n): the most recent capture of group n; none when the
group did not participate in the match. -/
def groupVal (caps : Caps) (n : Nat) : Option Str :=
  (caps.find? (fun p => p.1 = n)).map (fun p => p.2)

/-- Python truthiness of an optional matched group (None and the empty
string are both falsy). -/
def groupTruthy (g : Option Str) : Bool :=
  match g with
  | some s => !s.isEmpty
  | none => false

/-- re.sub with a state-threading replacement callback: scan left to
right, replacing each leftmost non-overlapping match.  The source's
call pattern cannot match the empty string, so the zero-width case only
guards fuel accounting. -/
def reSubGo {β : Type} (pat : List RE) (repl : Str → Caps → β → Str × β) :
    Nat → Str → β → Str × β
  | 0, s, st => (s, st)
  | fuel + 1, s, st =>
    match reMatch pat s with
    | some (caps, rest) =>
      let whole := s.take (s.length - rest.length)
      if whole.isEmpty then
        match s with
        | [] => (s, st)
        | c :: t =>
          let r := reSubGo pat repl fuel t st
          (c :: r.1, r.2)
      else
        let rp := repl whole caps st
        let r := reSubGo pat repl fuel rest rp.2
        (rp.1 ++ r.1, r.2)
    | none =>
      match s with
      | [] => ([], st)
      | c :: t =>
        let r := reSubGo pat repl fuel t st
        (c :: r.1, r.2)

def reSub {β : Type} (pat : List RE) (repl : Str → Caps → β → Str × β)
    (s : Str) (st : β) : Str × β :=
  reSubGo pat repl (s.length + 1) s st

def reLits (s : String) : List RE := s.toList.map RE.ch

/-! ## Regex-rule pipeline: src/main.py, class PseudoCToVerilog -/

namespace PseudoCToVerilog

/-- VariableDeclarationRule.pattern (main.py line 62). -/
def varDeclPat : List RE :=
  [.grp 1 [.rep1g .w, .opt [.ch '.', .rep1g .d],
           .opt (reLits ("::") ++ [.rep1g .w])],
   .rep1g .s, .grp 2 [.rep1g .w], .ch ';']

/-- FunctionDeclarationRule.pattern (main.py line 72). -/
def funcDeclPat : List RE :=
  reLits ("function")
  ++ [.opt (reLits ("::") ++ [.grp 1 [.rep1g .w]]),
      .rep0g .s,
      .opt [.grp 2 [.rep1g .w, .opt [.ch '.', .rep1g .d],
                    .opt (reLits ("::") ++ [.rep1g .w])]],
      .rep0g .s, .grp 3 [.rep1g .w], .ch '(', .grp 4 [.rep0l .dotNN],
      .ch ')', .rep0g .s, .ch '\x7b']

/-- AssignmentRule.pattern (main.py line 102). -/
def assignPat : List RE :=
  [.grp 1 [.rep1g .w], .rep0g .s, .ch '=', .rep0g .s,
   .grp 2 [.rep1g .nonSemi], .ch ';']

/-- The function-call pattern of AssignmentRule._convert_expression
(main.py line 119). -/
def funcCallPat : List RE :=
  [.grp 1 [.rep1g .w], .ch '(', .grp 2 [.rep0l .dotNN], .ch ')']

/-- The compilation context dictionary of PseudoCToVerilog.__init__
(main.py lines 153-159); the current_function key is absent until the
first function declaration, modelled as an Option.  The field named
variables in the source is called vars here (Lean reserves the former). -/
structure MCtx where
  vars : List (Str × Variable) := []
  functions : List (Str × Function Str) := []
  sequential_calls : List (Function Str × Str × Str) := []
  call_counter : Nat := 0
  in_always_block : Bool := false
  current_function : Option (Function Str) := none
deriving DecidableEq

def mctx0 : MCtx := {}

/-- VariableDeclarationRule.convert: record the variable; a declaration
produces no output line. -/
def varDeclConvert (g1 g2 : Str) (ctx : MCtx) : Res (Option Str × MCtx) :=
  match TypeInfo.parse g1 with
  | .ok ti => .ok (none, { ctx with vars := dput g2 ⟨g2, ti⟩ ctx.vars })
  | .err e => .err e
  | .fuelOut => .fuelOut

/-- Parameter-list parsing of FunctionDeclarationRule.convert: split on
commas, strip, whitespace-split each; entries with fewer than two parts
are dropped; the name is the space-join of everything after the type. -/
def parseParamsList : List Str → List Variable → Res (List Variable)
  | [], acc => .ok acc
  | p :: rest, acc =>
    let q := pyStrip p
    if q.isEmpty then parseParamsList rest acc
    else
      let parts := pySplitWS q
      if 2 ≤ parts.length then
        match TypeInfo.parse (parts.headD []) with
        | .ok ti =>
          parseParamsList rest (acc ++ [⟨joinWith (lit (" ")) parts.tail, ti⟩])
        | .err e => .err e
        | .fuelOut => .fuelOut
      else parseParamsList rest acc

/-- FunctionDeclarationRule.convert (main.py lines 74-98). -/
def funcDeclConvert (g1 g2 : Option Str) (g3 g4 : Str) (ctx : MCtx) :
    Res (Option Str × MCtx) :=
  let syncR : Res SyncMode :=
    if groupTruthy g1 then syncModeOf (g1.getD []) else .ok SyncMode.concurrent
  match syncR with
  | .err e => .err e
  | .fuelOut => .fuelOut
  | .ok sync =>
    let retR : Res (Option TypeInfo) :=
      if groupTruthy g2 then
        match TypeInfo.parse (g2.getD []) with
        | .ok ti => .ok (some ti)
        | .err e => .err e
        | .fuelOut => .fuelOut
      else .ok none
    match retR with
    | .err e => .err e
    | .fuelOut => .fuelOut
    | .ok ret =>
      let paramsR :=
        if (pyStrip g4).isEmpty then Res.ok ([] : List Variable)
        else parseParamsList (splitOn (lit (",")) g4) []
      match paramsR with
      | .err e => .err e
      | .fuelOut => .fuelOut
      | .ok params =>
        let fn : Function Str := ⟨g3, params, ret, [], sync⟩
        .ok (none, { ctx with current_function := some fn,
                              functions := dput g3 fn ctx.functions })

/-- AssignmentRule._generate_function_call (main.py lines 130-147): the
call resolver.  A parameter participates in the sequential test when the
index of its first equal occurrence (Python list.index) is below the
argument count; the effective mode falls back to the function's default;
CONCURRENT leaves the call text and the context unchanged; SEQUENTIAL
mints "{name}_inst_{call_counter}", appends the pending record and
replaces the call with "{instance_name}_result".  The source reads
call_counter but never writes it. -/
def generate_function_call (func : Function Str) (args : Str) (ctx : MCtx) :
    Str × MCtx :=
  let arg_parts := argSplit args
  let has_sequential := func.parameters.any (fun p =>
    decide (firstIdx p func.parameters < arg_parts.length)
    && decide (p.type_info.sync_mode = some SyncMode.sequential))
  let effective := if has_sequential then SyncMode.sequential
                   else func.default_sync_mode
  if effective = SyncMode.concurrent then
    (func.name ++ lit ("(") ++ args ++ lit (")"), ctx)
  else
    let instance_name := func.name ++ lit ("_inst_") ++ natToStr ctx.call_counter
    (instance_name ++ lit ("_result"),
     { ctx with sequential_calls :=
         ctx.sequential_calls ++ [(func, instance_name, args)] })

/-- AssignmentRule._convert_expression: rewrite every name(args) whose
name is a declared function, via the resolver; unknown names keep the
matched text. -/
def convert_expression (e : Str) (ctx : MCtx) : Str × MCtx :=
  reSub funcCallPat
    (fun whole caps c =>
      match dget ((groupVal caps 1).getD []) c.functions with
      | some f => generate_function_call f ((groupVal caps 2).getD []) c
      | none => (whole, c))
    e ctx

/-- AssignmentRule.convert: non-blocking form inside the always block,
continuous-assignment form outside it. -/
def assignConvert (g1 g2 : Str) (ctx : MCtx) : Str × MCtx :=
  let r := convert_expression g2 ctx
  if ctx.in_always_block then
    (g1 ++ lit (" <= ") ++ r.1 ++ lit (";"), r.2)
  else
    (lit ("assign ") ++ g1 ++ lit (" = ") ++ r.1 ++ lit (";"), r.2)

/-- One iteration of the rule loop of parse_and_convert: the three
registered rules are tried in registration order; a convert result of
None (declarations) appends nothing; an unmatched line is passed
through verbatim. -/
def processLine (line : Str) (ctx : MCtx) : Res (List Str × MCtx) :=
  match reMatch varDeclPat line with
  | some m =>
    match varDeclConvert ((groupVal m.1 1).getD []) ((groupVal m.1 2).getD []) ctx with
    | .ok r => .ok ([], r.2)
    | .err e => .err e
    | .fuelOut => .fuelOut
  | none =>
    match reMatch funcDeclPat line with
    | some m =>
      match funcDeclConvert (groupVal m.1 1) (groupVal m.1 2)
          ((groupVal m.1 3).getD []) ((groupVal m.1 4).getD []) ctx with
      | .ok r => .ok ([], r.2)
      | .err e => .err e
      | .fuelOut => .fuelOut
    | none =>
      match reMatch assignPat line with
      | some m =>
        let r := assignConvert ((groupVal m.1 1).getD []) ((groupVal m.1 2).getD []) ctx
        .ok (if r.1.isEmpty then [] else [r.1], r.2)
      | none => .ok ([line], ctx)

/-- PseudoCToVerilog._parse_block (main.py lines 210-228): brace-counting
block collector. -/
def parseBlockLoop : Nat → List Str → Nat → Int → List Str → List Str × Nat
  | 0, _, i, _, acc => (acc, i)
  | fuel + 1, lines, i, brace, acc =>
    if i < lines.length ∧ 0 < brace then
      let line := pyStrip (lines.getD i [])
      let b1 := if containsChar '\x7b' line
                then brace + countChar '\x7b' line else brace
      let b2 := if containsChar '\x7d' line
                then b1 - countChar '\x7d' line else b1
      let acc2 := if 0 < b2 then acc ++ [line] else acc
      parseBlockLoop fuel lines (i + 1) b2 acc2
    else (acc, i)

def parse_block (lines : List Str) (start : Nat) : List Str × Nat :=
  let r := parseBlockLoop (lines.length + 1) lines (start + 1) 1 []
  (r.1, r.2 - 1)

/-- The line loop of PseudoCToVerilog.parse_and_convert: a line holding a
brace whose stripped predecessor mentions "function" routes to the block
collector, whose lines become the current function's statements (the
functions dictionary holds the same Python object, so its entry is
updated too); every other line goes through the rules. -/
def pcLoop : Nat → List Str → Nat → List Str → MCtx → Res (List Str × MCtx)
  | 0, _, _, _, _ => .fuelOut
  | fuel + 1, lines, i, processed, ctx =>
    if i < lines.length then
      let line := pyStrip (lines.getD i [])
      if containsChar '\x7b' line ∧ 0 < i
         ∧ containsSub (lit ("function")) (pyStrip (lines.getD (i - 1) [])) then
        let pb := parse_block lines i
        let ctx2 :=
          match ctx.current_function with
          | some fn =>
            let fn2 := { fn with statements := pb.1 }
            { ctx with current_function := some fn2,
                       functions := dput fn.name fn2 ctx.functions }
          | none => ctx
        pcLoop fuel lines pb.2 processed ctx2
      else
        match processLine line ctx with
        | .ok r => pcLoop fuel lines (i + 1) (processed ++ r.1) r.2
        | .err e => .err e
        | .fuelOut => .fuelOut
    else .ok (processed, ctx)

/-- The always-block line reprocessing of _generate_verilog (main.py
lines 258-270): lines starting with int/signed/function (or empty) are
skipped; assignments re-convert with the in-always flag set; everything
else is emitted verbatim with indentation (the for-else). -/
def genLinesLoop : List Str → MCtx → List Str × MCtx
  | [], ctx => ([], ctx)
  | l :: rest, ctx =>
    if l.isEmpty || startsWithL (lit ("int")) l || startsWithL (lit ("signed")) l
       || startsWithL (lit ("function")) l then
      genLinesLoop rest ctx
    else
      let step : List Str × MCtx :=
        match reMatch assignPat l with
        | some m =>
          let r := assignConvert ((groupVal m.1 1).getD [])
                     ((groupVal m.1 2).getD []) ctx
          if r.1.isEmpty then ([lit ("            ") ++ l], r.2)
          else ([lit ("            ") ++ r.1], r.2)
        | none => ([lit ("            ") ++ l], ctx)
      let r2 := genLinesLoop rest step.2
      (step.1 ++ r2.1, r2.2)

/-- The function-body reprocessing of _generate_function_module (main.py
lines 327-340): each raw statement line re-runs through AssignmentRule
with the in-always flag set for the conversion. -/
def gfmBody : List Str → MCtx → List Str × MCtx
  | [], ctx => ([], ctx)
  | stmt :: rest, ctx =>
    let conv : Str × MCtx :=
      match reMatch assignPat stmt with
      | some m =>
        let r := assignConvert ((groupVal m.1 1).getD [])
                   ((groupVal m.1 2).getD [])
                   { ctx with in_always_block := true }
        (r.1, { r.2 with in_always_block := false })
      | none => (stmt, ctx)
    let here := if conv.1.isEmpty then [] else [lit ("            ") ++ conv.1]
    let r2 := gfmBody rest conv.2
    (here ++ r2.1, r2.2)

/-- PseudoCToVerilog._generate_function_module (main.py lines 295-348). -/
def generate_function_module (func : Function Str) (ctx : MCtx) :
    List Str × MCtx :=
  let ports :=
    [lit ("input clk"), lit ("input rst")]
    ++ func.parameters.map (fun p =>
        lit ("input ")
        ++ (if p.type_info.base_type = lit ("signed") then lit ("signed ") else [])
        ++ lit ("[") ++ intToStr (p.type_info.width - 1) ++ lit (":0] ") ++ p.name)
    ++ (match func.return_type with
        | some rt =>
          [lit ("output reg ")
           ++ (if rt.base_type = lit ("signed") then lit ("signed ") else [])
           ++ lit ("[") ++ intToStr (rt.width - 1) ++ lit (":0] result")]
        | none => [])
  let body := gfmBody func.statements ctx
  ([lit ("module ") ++ func.name ++ lit ("(")]
   ++ [lit ("    ") ++ joinWith (lit (",\n    ")) ports]
   ++ [lit (");"), []]
   ++ [lit ("    always @(posedge clk or posedge rst) begin"),
       lit ("        if (rst) begin")]
   ++ (if func.return_type.isSome then [lit ("            result <= 0;")] else [])
   ++ [lit ("        end else begin")]
   ++ body.1
   ++ [lit ("        end"), lit ("    end"), [], lit ("endmodule"), []],
   body.2)

def genFuncModulesLoop : List (Str × Function Str) → MCtx → List Str × MCtx
  | [], ctx => ([], ctx)
  | kv :: rest, ctx =>
    let r := generate_function_module kv.2 ctx
    let r2 := genFuncModulesLoop rest r.2
    (r.1 ++ r2.1, r2.2)

/-- PseudoCToVerilog._generate_verilog (main.py lines 230-288). -/
def generate_verilog (processed : List Str) (ctx : MCtx) : Str × MCtx :=
  let header :=
    [lit ("module main("), lit ("    input clk,"), lit ("    input rst"),
     lit (");"), []]
  let varLines := ctx.vars.map (fun kv => Parser.generate_variable_declaration kv.2)
  let resets := ctx.vars.map (fun kv => lit ("            ") ++ kv.1 ++ lit (" <= 0;"))
  let body := genLinesLoop processed { ctx with in_always_block := true }
  let ctxA := { body.2 with in_always_block := false }
  let funcs := genFuncModulesLoop ctxA.functions ctxA
  let inst := instanceSection funcs.2.sequential_calls
  (joinWith (lit ("\n"))
     (header ++ varLines ++ [[]]
      ++ [lit ("    always @(posedge clk or posedge rst) begin"),
          lit ("        if (rst) begin")]
      ++ resets
      ++ [lit ("        end else begin")]
      ++ body.1
      ++ [lit ("        end"), lit ("    end"), []]
      ++ funcs.1
      ++ inst
      ++ [lit ("endmodule")]),
   funcs.2)

/-- PseudoCToVerilog.parse_and_convert, with the object's context state
made explicit. -/
def parse_and_convert (code : Str) (ctx : MCtx) : Res (Str × MCtx) :=
  let lines := splitOn (lit ("\n")) (pyStrip code)
  match pcLoop ((lines.length + 2) * (lines.length + 2)) lines 0 [] ctx with
  | .ok r => .ok (generate_verilog r.1 r.2)
  | .err e => .err e
  | .fuelOut => .fuelOut

end PseudoCToVerilog

/-! ## Claim-side definitions (stated from the specification's wording,
to be compared with the source-derived definitions above) -/

/-- Claim side (C2): the recognized synchronization literals. -/
def isSyncLit (v : Str) : Bool :=
  decide (v = lit ("concurrent")) || decide (v = lit ("sequential"))

/-- Claim side (C2): a type string is bad exactly when its `::`-suffixed
synchronization token is not one of the two recognized literals, or its
width suffix (what follows the first dot of the type part) does not
convert as an integer -- which includes a width suffix containing a
further dot. -/
def typeBad (s : Str) : Bool :=
  let parts := splitOn (lit ("::")) s
  (decide (1 < parts.length) && !(isSyncLit (parts.getD 1 [])))
  || (containsChar '.' (parts.headD [])
      && (match splitOn (lit (".")) (parts.headD []) with
          | [_, w] => (pyInt w).isNone
          | _ => true))

/-- Claim side (C2): the condition under which each error payload may be
raised: an invalid sync literal, a width rejected by int(...), a type
part with at least two dots, or a missing function name. -/
def errCondition : PErr → Prop
  | .badSync s => s ≠ lit ("concurrent") ∧ s ≠ lit ("sequential")
  | .badInt s => pyInt s = none
  | .unpack s => 2 ≤ countChar '.' s
  | .missingFuncName => True

/-- Claim side (C2): a valid non-negative integer numeral (what the
original claim demanded of a width suffix): accepted by integer
conversion with a non-negative value. -/
def nonNegIntStr (s : Str) : Bool :=
  match pyInt s with
  | some n => decide (0 ≤ n)
  | none => false

/-- Claim side (C8): the port-binding lines of one instantiation block,
without the separating commas: clock, reset, one positional parameter
binding each, and the result binding when a return type exists. -/
def seqInstancePorts {σ : Type} (func : Function σ)
    (instance_name : Str) (args : Str) : List Str :=
  [lit ("        .clk(clk)"), lit ("        .rst(rst)")]
  ++ func.parameters.enum.map (fun p =>
      lit ("        .") ++ p.2.name ++ lit ("(")
        ++ bindArg (argSplit args) p.1 ++ lit (")"))
  ++ (if func.return_type.isSome then
        [lit ("        .result(") ++ instance_name ++ lit ("_result)")]
      else [])

/-- Append a comma to every line but the last. -/
def commasInit : List Str → List Str
  | [] => []
  | [a] => [a]
  | a :: b :: t => (a ++ [',']) :: commasInit (b :: t)

/-- Claim side (C8): one instantiation block as the claim describes it:
comment, instance header, the port bindings in order with separating
commas, closing parenthesis, blank line. -/
def seqInstanceSpec {σ : Type} (func : Function σ)
    (instance_name : Str) (args : Str) : List Str :=
  [lit ("    // Sequential function instance: ") ++ instance_name,
   lit ("    ") ++ func.name ++ lit (" ") ++ instance_name ++ lit (" (")]
  ++ commasInit (seqInstancePorts func instance_name args)
  ++ [lit ("    );"), []]

/-- Claim side (C10): the token pipeline's generator with no
sequential-instance section at all. -/
def Parser.generate_verilog_noinst (ast : Parser.Ast) (ctx : Parser.ACtx) :
    Str × Parser.ACtx :=
  let code :=
    [lit ("module main("), lit ("    input clk,"), lit ("    input rst"),
     lit (");"), []]
    ++ ast.vars.map (fun kv => Parser.generate_variable_declaration kv.2)
    ++ [[]]
    ++ [lit ("    always @(posedge clk or posedge rst) begin"),
        lit ("        if (rst) begin")]
    ++ ast.vars.map (fun kv => lit ("            ") ++ kv.1 ++ lit (" <= 0;"))
    ++ [lit ("        end else begin")]
    ++ ast.statements.map (fun s =>
        lit ("            ") ++ s.1 ++ lit (" <= ") ++ Parser.convert_expression s.2 ++ lit (";"))
    ++ [lit ("        end"), lit ("    end"), []]
    ++ concatMap (fun kv => Parser.generate_function_module kv.2) ast.functions
    ++ [lit ("endmodule")]
  (joinWith (lit ("\n")) code, { ctx with in_always_block := false })

/-! ## Concrete inputs used by the closed theorems -/

/-- The specification's end-to-end example (spec section 8): an 8-bit
variable, a sequential 8-bit function inc, and a call y = inc(y). -/
def srcInc : Str :=
  lit ("int.8 y;\nfunction::sequential int.8 inc(int.8 x)\x7b result = x + 1; \x7d\ny = inc(y);")

/-- The output of the regex-rule pipeline on srcInc from a fresh
converter object. -/
def outInc : Str :=
  match PseudoCToVerilog.parse_and_convert srcInc PseudoCToVerilog.mctx0 with
  | .ok r => r.1
  | _ => []

/-- The context after the regex-rule pipeline has run once on srcInc. -/
def ctxInc : PseudoCToVerilog.MCtx :=
  match PseudoCToVerilog.parse_and_convert srcInc PseudoCToVerilog.mctx0 with
  | .ok r => r.2
  | _ => PseudoCToVerilog.mctx0

/-- The output of a second parse_and_convert call on the same object. -/
def outInc2 : Str :=
  match PseudoCToVerilog.parse_and_convert srcInc ctxInc with
  | .ok r => r.1
  | _ => []

/-- A sequential function with two parameters, as declared by the
source's own example program (function::sequential signed.8
multiply(int.8 x, int.8 y)). -/
def fMultiply : Function Str :=
  ⟨lit ("multiply"),
   [⟨lit ("x"), ⟨lit ("int"), 8, none⟩⟩, ⟨lit ("y"), ⟨lit ("int"), 8, none⟩⟩],
   some ⟨lit ("signed"), 8, none⟩, [], SyncMode.sequential⟩

/-- A concurrent function with one non-sequential parameter, as declared
by the source's example (function::concurrent int.32 add(...)). -/
def fAddC : Function Str :=
  ⟨lit ("add"), [⟨lit ("x"), ⟨lit ("int"), 32, none⟩⟩], none, [],
   SyncMode.concurrent⟩

/-- The call resolver applied to the first call multiply(3,4). -/
def callOne : Str × PseudoCToVerilog.MCtx :=
  PseudoCToVerilog.generate_function_call fMultiply (lit ("3,4")) PseudoCToVerilog.mctx0

/-- The call resolver applied to the second call multiply(5,6), starting
from the context left by the first. -/
def callTwo : Str × PseudoCToVerilog.MCtx :=
  PseudoCToVerilog.generate_function_call fMultiply (lit ("5,6")) callOne.2

/-- The context after a second parse_and_convert call on the same object
(the state that a third compile would start from). -/
def ctxInc2 : PseudoCToVerilog.MCtx :=
  match PseudoCToVerilog.parse_and_convert srcInc ctxInc with
  | .ok r => r.2
  | _ => PseudoCToVerilog.mctx0

/-! ## Prelude lemmas: the split worker with sufficient fuel -/

theorem startsWithL_nil_of_ne (sep : Str) (hsep : sep ≠ []) :
    startsWithL sep [] = false := by
  cases sep with
  | nil => exact absurd rfl hsep
  | cons a as => rfl

theorem startsWithL_cons_of_ne_head (c d : Char) (cs t : Str) (h : ¬(c = d)) :
    startsWithL (c :: cs) (d :: t) = false := by
  simp [startsWithL, h]

theorem startsWithL_self_append (p s : Str) : startsWithL p (p ++ s) = true := by
  induction p with
  | nil => rfl
  | cons a as ih => simp [startsWithL, ih]

theorem splitF_ne_nil (sep : Str) : ∀ fuel s, splitF sep fuel s ≠ [] := by
  intro fuel
  induction fuel with
  | zero => intro s; simp [splitF]
  | succ f ih =>
    intro s
    cases s with
    | nil =>
      simp only [splitF]
      split <;> simp
    | cons c t =>
      simp only [splitF]
      split
      · simp
      · show consHead c (splitF sep f t) ≠ []
        unfold consHead
        cases splitF sep f t <;> simp

theorem splitF_fuel_irrel (sep : Str) (hsep : sep ≠ []) :
    ∀ f1 s, s.length < f1 → ∀ f2, s.length < f2 →
    splitF sep f1 s = splitF sep f2 s := by
  intro f1
  induction f1 with
  | zero => intro s h; omega
  | succ f ih =>
    intro s h f2 h2
    cases f2 with
    | zero => omega
    | succ g =>
      have hseplen : 0 < sep.length := List.length_pos.mpr hsep
      cases s with
      | nil =>
        simp only [splitF, startsWithL_nil_of_ne sep hsep]
        rfl
      | cons c t =>
        simp only [splitF]
        have h' : t.length + 1 < f + 1 := by simpa using h
        have h2' : t.length + 1 < g + 1 := by simpa using h2
        by_cases hp : startsWithL sep (c :: t) = true
        · rw [if_pos hp, if_pos hp]
          have : ((c :: t).drop sep.length).length < f := by simp; omega
          rw [ih ((c :: t).drop sep.length) this g (by simp; omega)]
        · rw [if_neg hp, if_neg hp]
          show consHead c (splitF sep f t) = consHead c (splitF sep g t)
          have hl : t.length < f := by simp at h; omega
          have hl2 : t.length < g := by simp at h2; omega
          rw [ih t hl g hl2]

theorem splitF_no_head (c : Char) (cs : Str) :
    ∀ fuel s, s.length < fuel → containsChar c s = false →
    splitF (c :: cs) fuel s = [s] := by
  intro fuel
  induction fuel with
  | zero => intro s h; omega
  | succ f ih =>
    intro s h hc
    cases s with
    | nil =>
      simp only [splitF, startsWithL_nil_of_ne (c :: cs) (by simp)]
      rfl
    | cons d t =>
      have hdc : ¬(c = d) := by
        simp [containsChar] at hc
        intro he
        exact hc.1 he.symm
      have ht : containsChar c t = false := by
        simp [containsChar] at hc ⊢
        exact hc.2
      simp only [splitF, startsWithL_cons_of_ne_head c d cs t hdc]
      rw [if_neg (by simp)]
      show consHead d (splitF (c :: cs) f t) = [d :: t]
      rw [ih t (by simp at h; omega) ht]
      rfl

theorem splitOn_no_head (c : Char) (cs s : Str) (h : containsChar c s = false) :
    splitOn (c :: cs) s = [s] := by
  unfold splitOn
  rw [if_neg (by simp)]
  exact splitF_no_head c cs (s.length + 1) s (by omega) h

theorem splitOn_append_sep (c : Char) (cs b : Str) :
    ∀ a, containsChar c a = false →
    splitOn (c :: cs) (a ++ (c :: cs) ++ b) = a :: splitOn (c :: cs) b := by
  have key : ∀ fuel a, (a ++ (c :: cs) ++ b).length < fuel →
      containsChar c a = false →
      splitF (c :: cs) fuel (a ++ (c :: cs) ++ b)
        = a :: splitF (c :: cs) (b.length + 1) b := by
    intro fuel
    induction fuel with
    | zero => intro a h; omega
    | succ f ih =>
      intro a h hc
      cases a with
      | nil =>
        simp only [List.nil_append]
        have hcons : (c :: cs) ++ b = c :: (cs ++ b) := by simp
        rw [hcons]
        conv_lhs => simp only [splitF]
        rw [if_pos (by rw [← hcons]; exact startsWithL_self_append (c :: cs) b)]
        have hdrop : (c :: (cs ++ b)).drop ((c : Char) :: cs).length = b := by
          rw [← hcons]
          exact List.drop_left (c :: cs) b
        rw [hdrop]
        exact congrArg (List.cons [])
          (splitF_fuel_irrel (c :: cs) (by simp) f b (by simp at h; omega)
            (b.length + 1) (by omega))
      | cons d a' =>
        have hdc : ¬(c = d) := by
          simp [containsChar] at hc
          intro he
          exact hc.1 he.symm
        have ha' : containsChar c a' = false := by
          simp [containsChar] at hc ⊢
          exact hc.2
        have heq : (d :: a') ++ (c :: cs) ++ b = d :: (a' ++ (c :: cs) ++ b) := by simp
        rw [heq]
        conv_lhs => simp only [splitF]
        rw [startsWithL_cons_of_ne_head c d cs _ hdc]
        rw [if_neg (by simp)]
        show consHead d (splitF (c :: cs) f (a' ++ (c :: cs) ++ b)) = _
        rw [ih a' (by simp at h ⊢; omega) ha']
        rfl
  intro a hc
  unfold splitOn
  rw [if_neg (by simp), if_neg (by simp)]
  exact key ((a ++ (c :: cs) ++ b).length + 1) a (by omega) hc

theorem countChar_cons (c d : Char) (t : Str) :
    countChar c (d :: t) = (if d = c then 1 else 0) + countChar c t := by
  simp only [countChar, List.filter_cons]
  by_cases h : d = c
  · simp [h]
    omega
  · simp [h]

theorem consHead_length (c : Char) (l : List Str) (h : l ≠ []) :
    (consHead c l).length = l.length := by
  cases l with
  | nil => exact absurd rfl h
  | cons a t => rfl

theorem splitOn_singleton_length (c : Char) (s : Str) :
    (splitOn [c] s).length = countChar c s + 1 := by
  have key : ∀ fuel s, (s : Str).length < fuel →
      (splitF [c] fuel s).length = countChar c s + 1 := by
    intro fuel
    induction fuel with
    | zero => intro s h; omega
    | succ f ih =>
      intro s h
      cases s with
      | nil =>
        simp only [splitF, startsWithL_nil_of_ne [c] (by simp)]
        simp [countChar]
      | cons d t =>
        by_cases hdc : c = d
        · simp only [splitF]
          rw [if_pos (by simp [startsWithL, hdc])]
          simp only [List.length_cons, List.length_singleton, List.drop_succ_cons,
            List.drop_zero, List.length_nil]
          rw [ih t (by simp at h; omega), countChar_cons]
          simp [hdc.symm]
          omega
        · simp only [splitF, startsWithL_cons_of_ne_head c d [] t hdc]
          rw [if_neg (by simp)]
          show (consHead d (splitF [c] f t)).length = _
          rw [consHead_length d _ (splitF_ne_nil [c] f t), ih t (by simp at h; omega),
            countChar_cons]
          have : ¬(d = c) := fun he => hdc he.symm
          simp [this]
  unfold splitOn
  rw [if_neg (by simp)]
  exact key (s.length + 1) s (by omega)

theorem containsChar_append (c : Char) (a b : Str) :
    containsChar c (a ++ b) = (containsChar c a || containsChar c b) := by
  simp [containsChar]

/-! ## Digit-string lemmas -/

theorem digit_ne (c x : Char) (h : c.isDigit = true) (hx : x.isDigit = false) :
    c ≠ x := by
  intro he
  subst he
  rw [h] at hx
  exact Bool.noConfusion hx

theorem isDigit_not_space (c : Char) (h : c.isDigit = true) :
    pyIsSpace c = false := by
  cases hsp : pyIsSpace c
  · rfl
  · exfalso
    simp only [pyIsSpace, Bool.or_eq_true, decide_eq_true_eq] at hsp
    rcases hsp with ((((h1 | h1) | h1) | h1) | h1) | h1 <;>
      (subst h1; exact absurd h (by decide))

theorem dropWhile_of_head_false {p : Char → Bool} :
    ∀ (l : Str), (∀ c ∈ l, p c = false) → l.dropWhile p = l := by
  intro l h
  cases l with
  | nil => rfl
  | cons a t =>
    rw [List.dropWhile_cons_of_neg]
    simp [h a (List.mem_cons_self a t)]

theorem pyStrip_of_no_space (s : Str) (h : ∀ c ∈ s, pyIsSpace c = false) :
    pyStrip s = s := by
  unfold pyStrip
  rw [dropWhile_of_head_false s h]
  rw [dropWhile_of_head_false s.reverse (fun c hc => h c (List.mem_reverse.mp hc))]
  exact List.reverse_reverse s

theorem pyDigitsAux_digits :
    ∀ (s : Str) (acc : Nat), (∀ c ∈ s, c.isDigit = true) →
    pyDigitsAux acc s = some (s.foldl (fun a c => a * 10 + digitVal c) acc) := by
  intro s
  induction s with
  | nil => intro acc _; rfl
  | cons c t ih =>
    intro acc h
    have hc : c.isDigit = true := h c (List.mem_cons_self c t)
    have hne : c ≠ '_' := digit_ne c '_' hc (by decide)
    unfold pyDigitsAux
    rw [if_neg hne, if_pos hc]
    rw [ih (acc * 10 + digitVal c) (fun d hd => h d (List.mem_cons_of_mem c hd))]
    rfl

theorem pyInt_digits (s : Str) (hne : s ≠ []) (h : ∀ c ∈ s, c.isDigit = true) :
    pyInt s = some ((natOfDigits s : Int)) := by
  unfold pyInt
  rw [pyStrip_of_no_space s (fun c hc => isDigit_not_space c (h c hc))]
  cases s with
  | nil => exact absurd rfl hne
  | cons c t =>
    have hc : c.isDigit = true := h c (List.mem_cons_self c t)
    have h1 : c ≠ '+' := digit_ne c '+' hc (by decide)
    have h2 : c ≠ '-' := digit_ne c '-' hc (by decide)
    have hfold : natOfDigits (c :: t)
        = t.foldl (fun a c => a * 10 + digitVal c) (digitVal c) := by
      simp [natOfDigits]
    have hrest : pyNatPart (c :: t) = some (natOfDigits (c :: t)) := by
      simp only [pyNatPart, if_pos hc]
      rw [pyDigitsAux_digits t (digitVal c) (fun d hd => h d (List.mem_cons_of_mem c hd))]
      rw [hfold]
    split
    · rename_i rest heq
      injection heq with he1 he2
      exact absurd he1 h1
    · rename_i rest heq
      injection heq with he1 he2
      exact absurd he1 h2
    · rw [hrest]
      rfl

theorem containsChar_false_of (c : Char) (s : Str) (h : ∀ d ∈ s, ¬(d = c)) :
    containsChar c s = false := by
  simp only [containsChar, List.any_eq_false, decide_eq_true_eq]
  exact h

theorem parseWithSync_split (tp base w : Str) (sync : Option SyncMode) (v : Int)
    (hdotc : containsChar '.' tp = true)
    (hdot : splitOn (lit (".")) tp = [base, w])
    (hwidth : pyInt w = some v) :
    TypeInfo.parseWithSync tp sync = .ok ⟨base, v, sync⟩ := by
  unfold TypeInfo.parseWithSync
  rw [if_pos hdotc, hdot]
  show (match pyInt w with
        | some n => Res.ok (TypeInfo.mk base n sync)
        | none => Res.err (.badInt w)) = _
  rw [hwidth]

theorem parseWithSync_nodot (tp : Str) (sync : Option SyncMode)
    (h : containsChar '.' tp = false) :
    TypeInfo.parseWithSync tp sync = .ok ⟨tp, 32, sync⟩ := by
  unfold TypeInfo.parseWithSync
  rw [if_neg (by simp [h])]

/-- C6: for every valid type string of the three forms base.width::mode,
base.width and base, TypeInfo.parse round-trips the width and sync-mode
fields exactly: the parsed width is the value of the written digit
string, the parsed mode is the written mode; an omitted width yields 32
and an omitted mode yields none. -/
theorem TypeInfo_parse_roundtrip (base w mode : Str)
    (hb : ∀ c ∈ base, c ≠ '.' ∧ c ≠ ':')
    (hw : w ≠ [])
    (hd : ∀ c ∈ w, c.isDigit = true)
    (hm : mode = lit ("concurrent") ∨ mode = lit ("sequential")) :
    TypeInfo.parse (base ++ '.' :: (w ++ ':' :: ':' :: mode))
      = .ok ⟨base, (natOfDigits w : Int),
             some (if mode = lit ("concurrent") then SyncMode.concurrent
                   else SyncMode.sequential)⟩
    ∧ TypeInfo.parse (base ++ '.' :: w) = .ok ⟨base, (natOfDigits w : Int), none⟩
    ∧ TypeInfo.parse base = .ok ⟨base, 32, none⟩ := by
  have hbc : containsChar ':' base = false :=
    containsChar_false_of ':' base (fun d hdm => (hb d hdm).2)
  have hbd : containsChar '.' base = false :=
    containsChar_false_of '.' base (fun d hdm => (hb d hdm).1)
  have hwd : containsChar '.' w = false :=
    containsChar_false_of '.' w (fun d hdm => digit_ne d '.' (hd d hdm) (by decide))
  have hlit2 : lit ("::") = ':' :: [':'] := rfl
  have hlit1 : lit (".") = '.' :: ([] : Str) := rfl
  have hAc : containsChar ':' (base ++ '.' :: w) = false := by
    rw [containsChar_append]
    simp only [hbc, Bool.false_or]
    exact containsChar_false_of ':' ('.' :: w) (by
      intro d hdm
      rcases List.mem_cons.mp hdm with h1 | h1
      · subst h1; decide
      · exact digit_ne d ':' (hd d h1) (by decide))
  have hmc : containsChar ':' mode = false := by
    rcases hm with h1 | h1 <;> (subst h1; decide)
  have hdot : splitOn (lit (".")) (base ++ '.' :: w) = [base, w] := by
    rw [hlit1]
    have hshape : base ++ '.' :: w = base ++ ('.' :: ([] : Str)) ++ w := by simp
    rw [hshape, splitOn_append_sep '.' [] w base hbd, splitOn_no_head '.' [] w hwd]
  have hdotc : containsChar '.' (base ++ '.' :: w) = true := by
    rw [containsChar_append]
    simp [containsChar]
  have hwidth : pyInt w = some ((natOfDigits w : Int)) := pyInt_digits w hw hd
  refine ⟨?_, ?_, ?_⟩
  · have hsplit : splitOn (lit ("::")) (base ++ '.' :: (w ++ ':' :: ':' :: mode))
        = [base ++ '.' :: w, mode] := by
      rw [hlit2]
      have hshape : base ++ '.' :: (w ++ ':' :: ':' :: mode)
          = (base ++ '.' :: w) ++ (':' :: [':']) ++ mode := by simp
      rw [hshape, splitOn_append_sep ':' [':'] mode (base ++ '.' :: w) hAc,
          splitOn_no_head ':' [':'] mode hmc]
    have hsync : syncModeOf mode
        = .ok (if mode = lit ("concurrent") then SyncMode.concurrent
               else SyncMode.sequential) := by
      rcases hm with h1 | h1 <;> (subst h1; decide)
    unfold TypeInfo.parse
    rw [hsplit]
    have hlen : (2 : Nat) = [base ++ '.' :: w, mode].length := rfl
    have hget : ([base ++ '.' :: w, mode] : List Str).getD 1 [] = mode := rfl
    have hhd : ([base ++ '.' :: w, mode] : List Str).headD [] = base ++ '.' :: w := rfl
    rw [if_pos (by rw [← hlen]; omega), hget, hhd, hsync]
    show TypeInfo.parseWithSync (base ++ '.' :: w) _ = _
    exact parseWithSync_split _ _ _ _ _ hdotc hdot hwidth
  · have hsplit : splitOn (lit ("::")) (base ++ '.' :: w) = [base ++ '.' :: w] := by
      rw [hlit2]
      exact splitOn_no_head ':' [':'] (base ++ '.' :: w) hAc
    unfold TypeInfo.parse
    rw [hsplit]
    exact parseWithSync_split _ _ _ _ _ hdotc hdot hwidth
  · have hsplit : splitOn (lit ("::")) base = [base] := by
      rw [hlit2]
      exact splitOn_no_head ':' [':'] base hbc
    unfold TypeInfo.parse
    rw [hsplit]
    exact parseWithSync_nodot base none hbd

/-! ## C7: the CONCURRENT path of the call resolver is a no-op on the
context and leaves the call text unchanged -/

theorem getElem?_firstIdx {α : Type} [DecidableEq α] (x : α) :
    ∀ (l : List α), x ∈ l → l[firstIdx x l]? = some x := by
  intro l
  induction l with
  | nil => intro h; cases h
  | cons a t ih =>
    intro h
    unfold firstIdx
    by_cases ha : a = x
    · rw [if_pos ha]
      simp [ha]
    · rw [if_neg ha]
      have hx : x ∈ t := by
        rcases List.mem_cons.mp h with h1 | h1
        · exact absurd h1.symm ha
        · exact h1
      rw [List.getElem?_cons_succ]
      exact ih hx

/-- C7: a call to a function whose effective sync mode is CONCURRENT (no
parameter position below the actual-argument count declares SEQUENTIAL,
and the default is CONCURRENT) resolves to the unchanged call text
name(args) and leaves the context - in particular the pending-instance
list and the call counter - untouched. -/
theorem generate_function_call_concurrent (f : Function Str) (args : Str)
    (ctx : PseudoCToVerilog.MCtx)
    (hdef : f.default_sync_mode = SyncMode.concurrent)
    (hp : ∀ i p, i < (argSplit args).length → f.parameters[i]? = some p →
          p.type_info.sync_mode ≠ some SyncMode.sequential) :
    PseudoCToVerilog.generate_function_call f args ctx
      = (f.name ++ lit ("(") ++ args ++ lit (")"), ctx) := by
  have hseq : f.parameters.any (fun p =>
      decide (firstIdx p f.parameters < (argSplit args).length)
      && decide (p.type_info.sync_mode = some SyncMode.sequential)) = false := by
    rw [List.any_eq_false]
    intro p hpmem
    simp only [Bool.and_eq_true, decide_eq_true_eq, not_and]
    intro hidx hsync
    exact hp (firstIdx p f.parameters) p hidx
      (getElem?_firstIdx p f.parameters hpmem) hsync
  unfold PseudoCToVerilog.generate_function_call
  simp only [hseq, Bool.false_eq_true, if_false, hdef]
  simp

/-- Witness for C7: the example concurrent function add, called with the
empty argument list, resolves to add() with the fresh context unchanged. -/
theorem generate_function_call_concurrent_w :
    fAddC.default_sync_mode = SyncMode.concurrent
    ∧ (∀ i p, i < (argSplit ([] : Str)).length → fAddC.parameters[i]? = some p →
        p.type_info.sync_mode ≠ some SyncMode.sequential)
    ∧ PseudoCToVerilog.generate_function_call fAddC [] PseudoCToVerilog.mctx0
        = (fAddC.name ++ lit ("(") ++ [] ++ lit (")"), PseudoCToVerilog.mctx0) := by
  have hp : ∀ i p, i < (argSplit ([] : Str)).length → fAddC.parameters[i]? = some p →
      p.type_info.sync_mode ≠ some SyncMode.sequential := by
    intro i p hi
    have hlen : (argSplit ([] : Str)).length = 0 := by decide
    omega
  exact ⟨rfl, hp,
    generate_function_call_concurrent fAddC [] PseudoCToVerilog.mctx0 rfl hp⟩

/-! ## C8: the instance generator emits exactly the block the claim
describes, one block per pending record in order -/

theorem pyRstripComma_snoc (s : Str) (c : Char) (h : ¬(c = ',')) :
    pyRstripComma (s ++ [c]) = s ++ [c] := by
  unfold pyRstripComma
  rw [List.reverse_append]
  simp only [List.reverse_cons, List.reverse_nil, List.nil_append,
    List.singleton_append]
  rw [List.dropWhile_cons_of_neg (by simp [h])]
  simp

theorem rstrip_fix_closeparen (s : Str) :
    pyRstripComma (s ++ lit (")")) = s ++ lit (")") :=
  pyRstripComma_snoc s ')' (by decide)

theorem commasInit_cons_of_ne (a : Str) (l : List Str) (h : l ≠ []) :
    commasInit (a :: l) = (a ++ [',']) :: commasInit l := by
  cases l with
  | nil => exact absurd rfl h
  | cons b t => rfl

theorem rstripLast_cons_of_ne (a : Str) (l : List Str) (h : l ≠ []) :
    rstripLast (a :: l) = a :: rstripLast l := by
  cases l with
  | nil => exact absurd rfl h
  | cons b t => rfl

theorem rstripLast_map_comma (P : List Str)
    (hP : ∀ x ∈ P, pyRstripComma x = x) (hne : P ≠ []) :
    rstripLast (P.map (fun l => l ++ [','])) = commasInit P := by
  induction P with
  | nil => exact absurd rfl hne
  | cons a t ih =>
    cases t with
    | nil =>
      show rstripLast [a ++ [',']] = [a]
      unfold rstripLast
      have : pyRstripComma (a ++ [',']) = pyRstripComma a := by
        unfold pyRstripComma
        rw [List.reverse_append]
        simp
      rw [this, hP a (List.mem_cons_self a [])]
    | cons b t2 =>
      have h1 : (b :: t2).map (fun l => l ++ [',']) ≠ [] := by simp
      rw [List.map_cons, rstripLast_cons_of_ne _ _ h1,
          commasInit_cons_of_ne a (b :: t2) (by simp)]
      rw [ih (fun x hx => hP x (List.mem_cons_of_mem a hx)) (by simp)]

theorem rstripLast_map_comma_last (P : List Str) (y : Str)
    (hy : pyRstripComma y = y) :
    rstripLast (P.map (fun l => l ++ [',']) ++ [y]) = commasInit (P ++ [y]) := by
  induction P with
  | nil =>
    show rstripLast [y] = [y]
    unfold rstripLast
    rw [hy]
  | cons a t ih =>
    have h1 : t.map (fun l => l ++ [',']) ++ [y] ≠ [] := by simp
    rw [List.map_cons, List.cons_append, rstripLast_cons_of_ne _ _ h1]
    have h2 : (a :: t) ++ [y] = a :: (t ++ [y]) := by simp
    rw [h2, commasInit_cons_of_ne a (t ++ [y]) (by simp), ih]

theorem seqInstParamLines_eq {σ : Type} (func : Function σ) (args : Str) :
    seqInstParamLines func args
      = (func.parameters.enum.map (fun p =>
          lit ("        .") ++ p.2.name ++ lit ("(")
            ++ bindArg (argSplit args) p.1 ++ lit (")"))).map
          (fun l => l ++ [',']) := by
  unfold seqInstParamLines
  rw [List.map_map]
  apply List.map_congr_left
  intro p _
  show lit ("        .") ++ p.2.name ++ lit ("(") ++ bindArg (argSplit args) p.1
      ++ lit ("),")
    = lit ("        .") ++ p.2.name ++ lit ("(") ++ bindArg (argSplit args) p.1
      ++ lit (")") ++ [',']
  simp [List.append_assoc]
  decide

/-- C8: the generator's pending-instance section is exactly one block
per pending record, in the order the records were appended, and each
block is precisely the claim's block: comment, instance header, clock
and reset connections, positional parameter bindings (literal 0 beyond
the actual arguments), the result net binding when a return type exists,
and the closing lines. -/
theorem generate_sequential_instance_spec :
    (∀ (σ : Type) (calls : List (Function σ × Str × Str)),
       instanceSection calls
         = concatMap (fun r => seqInstanceSpec r.1 r.2.1 r.2.2) calls)
    ∧ (∀ (σ : Type) (func : Function σ) (n args : Str),
       generate_sequential_instance func n args = seqInstanceSpec func n args) := by
  have single : ∀ (σ : Type) (func : Function σ) (n args : Str),
      generate_sequential_instance func n args = seqInstanceSpec func n args := by
    intro σ func n args
    set portBs := func.parameters.enum.map (fun p =>
      lit ("        .") ++ p.2.name ++ lit ("(")
        ++ bindArg (argSplit args) p.1 ++ lit (")")) with hportBs
    have hPfix : ∀ x ∈ [lit ("        .clk(clk)"), lit ("        .rst(rst)")]
        ++ portBs, pyRstripComma x = x := by
      intro x hx
      rcases List.mem_append.mp hx with h1 | h1
      · rcases List.mem_cons.mp h1 with h2 | h2
        · subst h2; decide
        · rcases List.mem_cons.mp h2 with h3 | h3
          · subst h3; decide
          · cases h3
      · rw [hportBs] at h1
        rcases List.mem_map.mp h1 with ⟨p, _, hp⟩
        subst hp
        have hsh : lit ("        .") ++ p.2.name ++ lit ("(")
            ++ bindArg (argSplit args) p.1 ++ lit (")")
          = (lit ("        .") ++ p.2.name ++ lit ("(")
             ++ bindArg (argSplit args) p.1) ++ lit (")") := by
          simp [List.append_assoc]
        rw [hsh]
        exact rstrip_fix_closeparen _
    have hmapP : seqInstParamLines func args = portBs.map (fun l => l ++ [',']) := by
      rw [seqInstParamLines_eq, hportBs]
    have hmapAll : lit ("        .clk(clk),") :: lit ("        .rst(rst),")
          :: seqInstParamLines func args
        = ([lit ("        .clk(clk)"), lit ("        .rst(rst)")] ++ portBs).map
            (fun l => l ++ [',']) := by
      rw [hmapP]
      rfl
    unfold generate_sequential_instance seqInstanceSpec seqInstancePorts seqInstHead
    rw [← hportBs]
    cases hret : func.return_type.isSome with
    | true =>
      have hres1 : seqInstResultLines func n
          = [lit ("        .result(") ++ n ++ lit ("_result)")] := by
        unfold seqInstResultLines
        rw [hret]
        rfl
      have hres2 : (if true = true
            then [lit ("        .result(") ++ n ++ lit ("_result)")]
            else ([] : List Str))
          = [lit ("        .result(") ++ n ++ lit ("_result)")] := rfl
      rw [hres1, hres2]
      have hresfix : pyRstripComma (lit ("        .result(") ++ n ++ lit ("_result)"))
          = lit ("        .result(") ++ n ++ lit ("_result)") := by
        have hres : lit ("        .result(") ++ n ++ lit ("_result)")
            = (lit ("        .result(") ++ n ++ lit ("_result")) ++ [')'] := by
          simp [List.append_assoc]
          decide
        rw [hres]
        exact pyRstripComma_snoc _ ')' (by decide)
      have hshape : [lit ("    // Sequential function instance: ") ++ n,
              lit ("    ") ++ func.name ++ lit (" ") ++ n ++ lit (" ("),
              lit ("        .clk(clk),"), lit ("        .rst(rst),")]
            ++ seqInstParamLines func args
            ++ [lit ("        .result(") ++ n ++ lit ("_result)")]
          = (lit ("    // Sequential function instance: ") ++ n)
            :: (lit ("    ") ++ func.name ++ lit (" ") ++ n ++ lit (" ("))
            :: (([lit ("        .clk(clk)"), lit ("        .rst(rst)")] ++ portBs).map
                  (fun l => l ++ [','])
                ++ [lit ("        .result(") ++ n ++ lit ("_result)")]) := by
        rw [← hmapAll]
        simp
      rw [hshape]
      rw [rstripLast_cons_of_ne _ _ (by simp), rstripLast_cons_of_ne _ _ (by simp)]
      rw [rstripLast_map_comma_last _ _ hresfix]
      simp
    | false =>
      have hres1 : seqInstResultLines func n = ([] : List Str) := by
        unfold seqInstResultLines
        rw [hret]
        rfl
      have hres2 : (if false = true
            then [lit ("        .result(") ++ n ++ lit ("_result)")]
            else ([] : List Str))
          = ([] : List Str) := rfl
      rw [hres1, hres2]
      have hshape : [lit ("    // Sequential function instance: ") ++ n,
              lit ("    ") ++ func.name ++ lit (" ") ++ n ++ lit (" ("),
              lit ("        .clk(clk),"), lit ("        .rst(rst),")]
            ++ seqInstParamLines func args ++ ([] : List Str)
          = (lit ("    // Sequential function instance: ") ++ n)
            :: (lit ("    ") ++ func.name ++ lit (" ") ++ n ++ lit (" ("))
            :: (([lit ("        .clk(clk)"), lit ("        .rst(rst)")] ++ portBs).map
                  (fun l => l ++ [','])) := by
        rw [← hmapAll]
        simp
      rw [hshape]
      rw [rstripLast_cons_of_ne _ _ (by simp), rstripLast_cons_of_ne _ _ (by simp)]
      rw [rstripLast_map_comma _ hPfix (by simp)]
      simp
  refine ⟨?_, single⟩
  intro σ calls
  unfold instanceSection concatMap
  congr 1
  apply List.map_congr_left
  intro r _
  exact single σ r.1 r.2.1 r.2.2

/-! ## C2 and C9 groundwork: error payloads and fuel sufficiency across
the token pipeline -/

theorem syncModeOf_ne_fuelOut (s : Str) : syncModeOf s ≠ Res.fuelOut := by
  unfold syncModeOf
  split_ifs <;> simp

theorem syncModeOf_err (s : Str) (e : PErr) (h : syncModeOf s = Res.err e) :
    e = PErr.badSync s ∧ s ≠ lit ("concurrent") ∧ s ≠ lit ("sequential") := by
  unfold syncModeOf at h
  split_ifs at h with h1 h2
  have h3 : PErr.badSync s = e := by
    injection h with hinj
  exact ⟨h3.symm, h1, h2⟩

theorem splitOn_ne_nil (sep s : Str) : splitOn sep s ≠ [] := by
  unfold splitOn
  split_ifs
  · simp
  · exact splitF_ne_nil sep (s.length + 1) s

theorem parseWithSync_ne_fuelOut (tp : Str) (sync : Option SyncMode) :
    TypeInfo.parseWithSync tp sync ≠ Res.fuelOut := by
  unfold TypeInfo.parseWithSync
  split_ifs
  · split
    · split <;> simp
    · simp
  · simp

theorem parseWithSync_err (tp : Str) (sync : Option SyncMode) (e : PErr)
    (h : TypeInfo.parseWithSync tp sync = Res.err e) : errCondition e := by
  unfold TypeInfo.parseWithSync at h
  split_ifs at h with hdot
  split at h
  · rename_i b w heq
    split at h
    · cases h
    · rename_i hpy
      injection h with h1
      subst h1
      exact hpy
  · rename_i hne2
    injection h with h1
    subst h1
    show 2 ≤ countChar '.' tp
    have hlen : (splitOn (lit (".")) tp).length = countChar '.' tp + 1 := by
      rw [show lit (".") = ['.'] from rfl]
      exact splitOn_singleton_length '.' tp
    have hge1 : 1 ≤ countChar '.' tp := by
      simp only [containsChar, List.any_eq_true, decide_eq_true_eq] at hdot
      rcases hdot with ⟨d, hd1, hd2⟩
      subst hd2
      simp only [countChar]
      have hmem : ('.' : Char) ∈ tp.filter (fun x => decide (x = '.')) :=
        List.mem_filter.mpr ⟨hd1, by simp⟩
      have hne3 : tp.filter (fun x => decide (x = '.')) ≠ [] := by
        intro hc
        rw [hc] at hmem
        cases hmem
      have := List.length_pos.mpr hne3
      omega
    rcases hsp : splitOn (lit (".")) tp with _ | ⟨a, _ | ⟨b2, _ | ⟨c2, r⟩⟩⟩
    · exact absurd hsp (splitOn_ne_nil _ _)
    · rw [hsp] at hlen
      simp at hlen
      omega
    · exact absurd hsp (by intro hc; exact hne2 a b2 hc)
    · rw [hsp] at hlen
      simp at hlen
      omega

theorem TypeInfo_parse_ne_fuelOut (s : Str) : TypeInfo.parse s ≠ Res.fuelOut := by
  unfold TypeInfo.parse
  split_ifs
  · split
    · exact parseWithSync_ne_fuelOut _ _
    · simp
    · rename_i heq
      exact absurd heq (syncModeOf_ne_fuelOut _)
  · exact parseWithSync_ne_fuelOut _ _

theorem TypeInfo_parse_err (s : Str) (e : PErr) (h : TypeInfo.parse s = Res.err e) :
    errCondition e := by
  unfold TypeInfo.parse at h
  split_ifs at h
  · split at h
    · exact parseWithSync_err _ _ _ h
    · rename_i e2 heq
      injection h with h1
      subst h1
      have := syncModeOf_err _ _ heq
      rw [this.1]
      exact ⟨this.2.1, this.2.2⟩
    · cases h
  · exact parseWithSync_err _ _ _ h

theorem pfSync_ne_fuelOut (ts : List Token) (i : Nat) :
    Parser.pfSync ts i ≠ Res.fuelOut := by
  unfold Parser.pfSync
  split_ifs
  · split
    · simp
    · simp
    · rename_i heq
      exact absurd heq (syncModeOf_ne_fuelOut _)
  · simp

theorem pfSync_err (ts : List Token) (i : Nat) (e : PErr)
    (h : Parser.pfSync ts i = Res.err e) : errCondition e := by
  unfold Parser.pfSync at h
  split_ifs at h
  · split at h
    · cases h
    · rename_i e2 heq
      injection h with h1
      subst h1
      have := syncModeOf_err _ _ heq
      rw [this.1]
      exact ⟨this.2.1, this.2.2⟩
    · cases h

theorem pfSync_mono (ts : List Token) (i : Nat) (r : SyncMode × Nat)
    (h : Parser.pfSync ts i = Res.ok r) : i + 1 ≤ r.2 := by
  unfold Parser.pfSync at h
  split_ifs at h
  · split at h
    · injection h with h1
      subst h1
      simp
    · cases h
    · cases h
  · injection h with h1
    subst h1
    simp

theorem pfRet_ne_fuelOut (ts : List Token) (i : Nat) :
    Parser.pfRet ts i ≠ Res.fuelOut := by
  unfold Parser.pfRet
  split_ifs
  · split
    · simp
    · simp
    · rename_i heq
      exact absurd heq (TypeInfo_parse_ne_fuelOut _)
  · simp

theorem pfRet_err (ts : List Token) (i : Nat) (e : PErr)
    (h : Parser.pfRet ts i = Res.err e) : errCondition e := by
  unfold Parser.pfRet at h
  split_ifs at h
  · split at h
    · cases h
    · rename_i e2 heq
      injection h with h1
      subst h1
      exact TypeInfo_parse_err _ _ heq
    · cases h

theorem pfRet_mono (ts : List Token) (i : Nat) (r : Option TypeInfo × Nat)
    (h : Parser.pfRet ts i = Res.ok r) : i ≤ r.2 := by
  unfold Parser.pfRet at h
  split_ifs at h
  · split at h
    · injection h with h1
      subst h1
      simp
    · cases h
    · cases h
  · injection h with h1
    subst h1
    simp

theorem pfName_ne_fuelOut (ts : List Token) (i : Nat) :
    Parser.pfName ts i ≠ Res.fuelOut := by
  unfold Parser.pfName
  split_ifs <;> simp

theorem pfName_err (ts : List Token) (i : Nat) (e : PErr)
    (h : Parser.pfName ts i = Res.err e) : errCondition e := by
  unfold Parser.pfName at h
  split_ifs at h
  injection h with h1
  subst h1
  trivial

theorem pfName_mono (ts : List Token) (i : Nat) (r : Str × Nat)
    (h : Parser.pfName ts i = Res.ok r) : r.2 = i + 1 := by
  unfold Parser.pfName at h
  split_ifs at h
  injection h with h1
  subst h1
  rfl

theorem pfParamsLoop_succ (f : Nat) (ts : List Token) (i : Nat)
    (acc : List Variable) :
    Parser.pfParamsLoop (f + 1) ts i acc =
    if i < ts.length ∧ ¬((Parser.tokAt ts i).type = TokenType.DELIMITER
        ∧ (Parser.tokAt ts i).value = lit (")")) then
      if (Parser.tokAt ts i).type = TokenType.TYPE then
        match TypeInfo.parse (Parser.tokAt ts i).value with
        | .ok pt =>
          if i + 1 < ts.length ∧ (Parser.tokAt ts (i + 1)).type = TokenType.IDENTIFIER
          then
            Parser.pfParamsLoop f ts
              (if i + 2 < ts.length ∧ (Parser.tokAt ts (i + 2)).type = TokenType.DELIMITER
                  ∧ (Parser.tokAt ts (i + 2)).value = lit (",")
               then i + 3 else i + 2)
              (acc ++ [⟨(Parser.tokAt ts (i + 1)).value, pt⟩])
          else
            Parser.pfParamsLoop f ts
              (if i + 1 < ts.length ∧ (Parser.tokAt ts (i + 1)).type = TokenType.DELIMITER
                  ∧ (Parser.tokAt ts (i + 1)).value = lit (",")
               then i + 2 else i + 1)
              acc
        | .err e => .err e
        | .fuelOut => .fuelOut
      else Parser.pfParamsLoop f ts (i + 1) acc
    else .ok (i, acc) := rfl

theorem pfParamsLoop_ne_fuelOut : ∀ fuel ts i acc, ts.length - i < fuel →
    Parser.pfParamsLoop fuel ts i acc ≠ Res.fuelOut := by
  intro fuel ts i acc
  induction fuel, ts, i, acc using Parser.pfParamsLoop.induct with
  | case1 ts i acc hcond =>
    intro h
    exact absurd h (Nat.not_lt_zero _)
  | case2 ts i acc hcond f htype ti hok hident ih =>
    intro h
    rw [pfParamsLoop_succ, if_pos hcond, if_pos htype]
    simp only [hok]
    rw [if_pos hident]
    apply ih
    obtain ⟨hi, -⟩ := hcond
    split_ifs <;> omega
  | case3 ts i acc hcond f htype ti hok hident ih =>
    intro h
    rw [pfParamsLoop_succ, if_pos hcond, if_pos htype]
    simp only [hok]
    rw [if_neg hident]
    apply ih
    obtain ⟨hi, -⟩ := hcond
    split_ifs <;> omega
  | case4 ts i acc hcond f htype e herr =>
    intro h
    rw [pfParamsLoop_succ, if_pos hcond, if_pos htype]
    simp only [herr]
    simp
  | case5 ts i acc hcond f htype hfo =>
    exact absurd hfo (TypeInfo_parse_ne_fuelOut _)
  | case6 ts i acc hcond f htype ih =>
    intro h
    rw [pfParamsLoop_succ, if_pos hcond, if_neg htype]
    apply ih
    obtain ⟨hi, -⟩ := hcond
    omega
  | case7 fuel ts i acc hcond =>
    intro h
    unfold Parser.pfParamsLoop
    rw [if_neg hcond]
    simp

theorem pfParamsLoop_mono : ∀ fuel ts i acc r,
    Parser.pfParamsLoop fuel ts i acc = Res.ok r → i ≤ r.1 := by
  intro fuel ts i acc
  induction fuel, ts, i, acc using Parser.pfParamsLoop.induct with
  | case1 ts i acc hcond =>
    intro r h
    unfold Parser.pfParamsLoop at h
    rw [if_pos hcond] at h
    cases h
  | case2 ts i acc hcond f htype ti hok hident ih =>
    intro r h
    rw [pfParamsLoop_succ, if_pos hcond, if_pos htype] at h
    simp only [hok] at h
    rw [if_pos hident] at h
    have := ih r h
    split_ifs at this <;> omega
  | case3 ts i acc hcond f htype ti hok hident ih =>
    intro r h
    rw [pfParamsLoop_succ, if_pos hcond, if_pos htype] at h
    simp only [hok] at h
    rw [if_neg hident] at h
    have := ih r h
    split_ifs at this <;> omega
  | case4 ts i acc hcond f htype e herr =>
    intro r h
    rw [pfParamsLoop_succ, if_pos hcond, if_pos htype] at h
    simp only [herr] at h
    cases h
  | case5 ts i acc hcond f htype hfo =>
    exact absurd hfo (TypeInfo_parse_ne_fuelOut _)
  | case6 ts i acc hcond f htype ih =>
    intro r h
    rw [pfParamsLoop_succ, if_pos hcond, if_neg htype] at h
    have := ih r h
    omega
  | case7 fuel ts i acc hcond =>
    intro r h
    unfold Parser.pfParamsLoop at h
    rw [if_neg hcond] at h
    injection h with h1
    subst h1
    exact Nat.le_refl _

theorem pfParamsLoop_err : ∀ fuel ts i acc e,
    Parser.pfParamsLoop fuel ts i acc = Res.err e → errCondition e := by
  intro fuel ts i acc
  induction fuel, ts, i, acc using Parser.pfParamsLoop.induct with
  | case1 ts i acc hcond =>
    intro e h
    unfold Parser.pfParamsLoop at h
    rw [if_pos hcond] at h
    cases h
  | case2 ts i acc hcond f htype ti hok hident ih =>
    intro e h
    rw [pfParamsLoop_succ, if_pos hcond, if_pos htype] at h
    simp only [hok] at h
    rw [if_pos hident] at h
    exact ih e h
  | case3 ts i acc hcond f htype ti hok hident ih =>
    intro e h
    rw [pfParamsLoop_succ, if_pos hcond, if_pos htype] at h
    simp only [hok] at h
    rw [if_neg hident] at h
    exact ih e h
  | case4 ts i acc hcond f htype e2 herr =>
    intro e h
    rw [pfParamsLoop_succ, if_pos hcond, if_pos htype] at h
    simp only [herr] at h
    injection h with h1
    subst h1
    exact TypeInfo_parse_err _ _ herr
  | case5 ts i acc hcond f htype hfo =>
    exact absurd hfo (TypeInfo_parse_ne_fuelOut _)
  | case6 ts i acc hcond f htype ih =>
    intro e h
    rw [pfParamsLoop_succ, if_pos hcond, if_neg htype] at h
    exact ih e h
  | case7 fuel ts i acc hcond =>
    intro e h
    unfold Parser.pfParamsLoop at h
    rw [if_neg hcond] at h
    cases h

theorem pfParams_ne_fuelOut (ts : List Token) (i : Nat) :
    Parser.pfParams ts i ≠ Res.fuelOut := by
  unfold Parser.pfParams
  split_ifs
  · split
    · simp
    · simp
    · rename_i heq
      exact absurd heq (pfParamsLoop_ne_fuelOut _ _ _ _ (by omega))
  · simp

theorem pfParams_err (ts : List Token) (i : Nat) (e : PErr)
    (h : Parser.pfParams ts i = Res.err e) : errCondition e := by
  unfold Parser.pfParams at h
  split_ifs at h
  · split at h
    · cases h
    · rename_i e2 heq
      injection h with h1
      subst h1
      exact pfParamsLoop_err _ _ _ _ _ heq
    · cases h

theorem pfParams_mono (ts : List Token) (i : Nat) (r : Nat × List Variable)
    (h : Parser.pfParams ts i = Res.ok r) : i ≤ r.1 := by
  unfold Parser.pfParams at h
  split_ifs at h
  · split at h
    · rename_i r2 heq
      injection h with h1
      subst h1
      have := pfParamsLoop_mono _ _ _ _ _ heq
      simp only []
      omega
    · cases h
    · cases h
  · injection h with h1
    subst h1
    exact Nat.le_refl _

theorem pfBodyExprLoop_succ (f : Nat) (ts : List Token) (i : Nat)
    (acc : List Token) :
    Parser.pfBodyExprLoop (f + 1) ts i acc =
    if i < ts.length ∧ ¬((Parser.tokAt ts i).type = TokenType.DELIMITER
        ∧ (Parser.tokAt ts i).value = lit (";")) then
      Parser.pfBodyExprLoop f ts (i + 1) (acc ++ [Parser.tokAt ts i])
    else .ok (i, acc) := rfl

theorem pfBodyExprLoop_ne_fuelOut : ∀ fuel ts i acc, ts.length - i < fuel →
    Parser.pfBodyExprLoop fuel ts i acc ≠ Res.fuelOut := by
  intro fuel ts i acc
  induction fuel, ts, i, acc using Parser.pfBodyExprLoop.induct with
  | case1 ts i acc hcond =>
    intro h
    exact absurd h (Nat.not_lt_zero _)
  | case2 ts i acc hcond f ih =>
    intro h
    rw [pfBodyExprLoop_succ, if_pos hcond]
    apply ih
    obtain ⟨hi, -⟩ := hcond
    omega
  | case3 fuel ts i acc hcond =>
    intro h
    unfold Parser.pfBodyExprLoop
    rw [if_neg hcond]
    simp

theorem pfBodyExprLoop_mono : ∀ fuel ts i acc r,
    Parser.pfBodyExprLoop fuel ts i acc = Res.ok r → i ≤ r.1 := by
  intro fuel ts i acc
  induction fuel, ts, i, acc using Parser.pfBodyExprLoop.induct with
  | case1 ts i acc hcond =>
    intro r h
    unfold Parser.pfBodyExprLoop at h
    rw [if_pos hcond] at h
    cases h
  | case2 ts i acc hcond f ih =>
    intro r h
    rw [pfBodyExprLoop_succ, if_pos hcond] at h
    have := ih r h
    omega
  | case3 fuel ts i acc hcond =>
    intro r h
    unfold Parser.pfBodyExprLoop at h
    rw [if_neg hcond] at h
    injection h with h1
    subst h1
    exact Nat.le_refl _

theorem pfBodyExprLoop_ne_err : ∀ fuel ts i acc e,
    Parser.pfBodyExprLoop fuel ts i acc ≠ Res.err e := by
  intro fuel ts i acc
  induction fuel, ts, i, acc using Parser.pfBodyExprLoop.induct with
  | case1 ts i acc hcond =>
    intro e h
    unfold Parser.pfBodyExprLoop at h
    rw [if_pos hcond] at h
    cases h
  | case2 ts i acc hcond f ih =>
    intro e h
    rw [pfBodyExprLoop_succ, if_pos hcond] at h
    exact ih e h
  | case3 fuel ts i acc hcond =>
    intro e h
    unfold Parser.pfBodyExprLoop at h
    rw [if_neg hcond] at h
    cases h

theorem topExprLoop_succ (f : Nat) (ts : List Token) (i : Nat)
    (acc : List Token) :
    Parser.topExprLoop (f + 1) ts i acc =
    if i < ts.length ∧ ¬((Parser.tokAt ts i).type = TokenType.DELIMITER) then
      Parser.topExprLoop f ts (i + 1) (acc ++ [Parser.tokAt ts i])
    else .ok (i, acc) := rfl

theorem topExprLoop_ne_fuelOut : ∀ fuel ts i acc, ts.length - i < fuel →
    Parser.topExprLoop fuel ts i acc ≠ Res.fuelOut := by
  intro fuel ts i acc
  induction fuel, ts, i, acc using Parser.topExprLoop.induct with
  | case1 ts i acc hcond =>
    intro h
    exact absurd h (Nat.not_lt_zero _)
  | case2 ts i acc hcond f ih =>
    intro h
    rw [topExprLoop_succ, if_pos hcond]
    apply ih
    obtain ⟨hi, -⟩ := hcond
    omega
  | case3 fuel ts i acc hcond =>
    intro h
    unfold Parser.topExprLoop
    rw [if_neg hcond]
    simp

theorem topExprLoop_mono : ∀ fuel ts i acc r,
    Parser.topExprLoop fuel ts i acc = Res.ok r → i ≤ r.1 := by
  intro fuel ts i acc
  induction fuel, ts, i, acc using Parser.topExprLoop.induct with
  | case1 ts i acc hcond =>
    intro r h
    unfold Parser.topExprLoop at h
    rw [if_pos hcond] at h
    cases h
  | case2 ts i acc hcond f ih =>
    intro r h
    rw [topExprLoop_succ, if_pos hcond] at h
    have := ih r h
    omega
  | case3 fuel ts i acc hcond =>
    intro r h
    unfold Parser.topExprLoop at h
    rw [if_neg hcond] at h
    injection h with h1
    subst h1
    exact Nat.le_refl _

theorem topExprLoop_ne_err : ∀ fuel ts i acc e,
    Parser.topExprLoop fuel ts i acc ≠ Res.err e := by
  intro fuel ts i acc
  induction fuel, ts, i, acc using Parser.topExprLoop.induct with
  | case1 ts i acc hcond =>
    intro e h
    unfold Parser.topExprLoop at h
    rw [if_pos hcond] at h
    cases h
  | case2 ts i acc hcond f ih =>
    intro e h
    rw [topExprLoop_succ, if_pos hcond] at h
    exact ih e h
  | case3 fuel ts i acc hcond =>
    intro e h
    unfold Parser.topExprLoop at h
    rw [if_neg hcond] at h
    cases h

theorem pfBodyLoop_succ (f : Nat) (ts : List Token) (i : Nat)
    (acc : List AStmt) :
    Parser.pfBodyLoop (f + 1) ts i acc =
    if i < ts.length ∧ ¬((Parser.tokAt ts i).type = TokenType.DELIMITER
        ∧ (Parser.tokAt ts i).value = lit ("\x7d")) then
      if (Parser.tokAt ts i).type = TokenType.IDENTIFIER ∧ i + 1 < ts.length
         ∧ (Parser.tokAt ts (i + 1)).type = TokenType.OPERATOR
         ∧ (Parser.tokAt ts (i + 1)).value = lit ("=") then
        match Parser.pfBodyExprLoop (ts.length + 1) ts (i + 2) [] with
        | .ok r =>
          Parser.pfBodyLoop f ts (r.1 + 1)
            (acc ++ [((Parser.tokAt ts i).value, Parser.tokens_to_expression r.2)])
        | .err e => .err e
        | .fuelOut => .fuelOut
      else Parser.pfBodyLoop f ts (i + 1) acc
    else .ok (i, acc) := rfl

theorem pfBodyLoop_ne_fuelOut : ∀ fuel ts i acc, ts.length - i < fuel →
    Parser.pfBodyLoop fuel ts i acc ≠ Res.fuelOut := by
  intro fuel ts i acc
  induction fuel, ts, i, acc using Parser.pfBodyLoop.induct with
  | case1 ts i acc hcond =>
    intro h
    exact absurd h (Nat.not_lt_zero _)
  | case2 ts i acc hcond f hassign r hexpr ih =>
    intro h
    rw [pfBodyLoop_succ, if_pos hcond, if_pos hassign]
    simp only [hexpr]
    apply ih
    have hm := pfBodyExprLoop_mono _ _ _ _ _ hexpr
    obtain ⟨hi, -⟩ := hcond
    omega
  | case3 ts i acc hcond f hassign e herr =>
    exact absurd herr (pfBodyExprLoop_ne_err _ _ _ _ _)
  | case4 ts i acc hcond f hassign hfo =>
    exact absurd hfo (pfBodyExprLoop_ne_fuelOut _ _ _ _ (by omega))
  | case5 ts i acc hcond f hassign ih =>
    intro h
    rw [pfBodyLoop_succ, if_pos hcond, if_neg hassign]
    apply ih
    obtain ⟨hi, -⟩ := hcond
    omega
  | case6 fuel ts i acc hcond =>
    intro h
    unfold Parser.pfBodyLoop
    rw [if_neg hcond]
    simp

theorem pfBodyLoop_mono : ∀ fuel ts i acc r,
    Parser.pfBodyLoop fuel ts i acc = Res.ok r → i ≤ r.1 := by
  intro fuel ts i acc
  induction fuel, ts, i, acc using Parser.pfBodyLoop.induct with
  | case1 ts i acc hcond =>
    intro r h
    unfold Parser.pfBodyLoop at h
    rw [if_pos hcond] at h
    cases h
  | case2 ts i acc hcond f hassign r hexpr ih =>
    intro r2 h
    rw [pfBodyLoop_succ, if_pos hcond, if_pos hassign] at h
    simp only [hexpr] at h
    have := ih r2 h
    have hm := pfBodyExprLoop_mono _ _ _ _ _ hexpr
    omega
  | case3 ts i acc hcond f hassign e herr =>
    exact absurd herr (pfBodyExprLoop_ne_err _ _ _ _ _)
  | case4 ts i acc hcond f hassign hfo =>
    exact absurd hfo (pfBodyExprLoop_ne_fuelOut _ _ _ _ (by omega))
  | case5 ts i acc hcond f hassign ih =>
    intro r h
    rw [pfBodyLoop_succ, if_pos hcond, if_neg hassign] at h
    have := ih r h
    omega
  | case6 fuel ts i acc hcond =>
    intro r h
    unfold Parser.pfBodyLoop at h
    rw [if_neg hcond] at h
    injection h with h1
    subst h1
    exact Nat.le_refl _

theorem pfBodyLoop_ne_err : ∀ fuel ts i acc e,
    Parser.pfBodyLoop fuel ts i acc ≠ Res.err e := by
  intro fuel ts i acc
  induction fuel, ts, i, acc using Parser.pfBodyLoop.induct with
  | case1 ts i acc hcond =>
    intro e h
    unfold Parser.pfBodyLoop at h
    rw [if_pos hcond] at h
    cases h
  | case2 ts i acc hcond f hassign r hexpr ih =>
    intro e h
    rw [pfBodyLoop_succ, if_pos hcond, if_pos hassign] at h
    simp only [hexpr] at h
    exact ih e h
  | case3 ts i acc hcond f hassign e2 herr =>
    exact absurd herr (pfBodyExprLoop_ne_err _ _ _ _ _)
  | case4 ts i acc hcond f hassign hfo =>
    exact absurd hfo (pfBodyExprLoop_ne_fuelOut _ _ _ _ (by omega))
  | case5 ts i acc hcond f hassign ih =>
    intro e h
    rw [pfBodyLoop_succ, if_pos hcond, if_neg hassign] at h
    exact ih e h
  | case6 fuel ts i acc hcond =>
    intro e h
    unfold Parser.pfBodyLoop at h
    rw [if_neg hcond] at h
    cases h

theorem pfBody_ne_fuelOut (ts : List Token) (i : Nat) :
    Parser.pfBody ts i ≠ Res.fuelOut := by
  unfold Parser.pfBody
  split_ifs
  · split
    · simp
    · simp
    · rename_i heq
      exact absurd heq (pfBodyLoop_ne_fuelOut _ _ _ _ (by omega))
  · simp

theorem pfBody_ne_err (ts : List Token) (i : Nat) (e : PErr) :
    Parser.pfBody ts i ≠ Res.err e := by
  unfold Parser.pfBody
  split_ifs
  · split
    · simp
    · rename_i e2 heq
      exact absurd heq (pfBodyLoop_ne_err _ _ _ _ _)
    · simp
  · simp

theorem pfBody_mono (ts : List Token) (i : Nat) (r : Nat × List AStmt)
    (h : Parser.pfBody ts i = Res.ok r) : i ≤ r.1 := by
  unfold Parser.pfBody at h
  split_ifs at h
  · split at h
    · rename_i r2 heq
      injection h with h1
      subst h1
      have := pfBodyLoop_mono _ _ _ _ _ heq
      simp only []
      omega
    · cases h
    · cases h
  · injection h with h1
    subst h1
    exact Nat.le_refl _


theorem parse_function_ne_fuelOut (ts : List Token) (start : Nat) :
    Parser.parse_function ts start ≠ Res.fuelOut := by
  unfold Parser.parse_function
  cases h1 : Parser.pfSync ts start with
  | err e => simp [Bind.bind, Res.bind]
  | fuelOut => exact absurd h1 (pfSync_ne_fuelOut _ _)
  | ok s1 =>
    simp only [Bind.bind, Res.bind]
    cases h2 : Parser.pfRet ts s1.2 with
    | err e => simp [Res.bind]
    | fuelOut => exact absurd h2 (pfRet_ne_fuelOut _ _)
    | ok s2 =>
      simp only [Res.bind]
      cases h3 : Parser.pfName ts s2.2 with
      | err e => simp [Res.bind]
      | fuelOut => exact absurd h3 (pfName_ne_fuelOut _ _)
      | ok s3 =>
        simp only [Res.bind]
        cases h4 : Parser.pfParams ts s3.2 with
        | err e => simp [Res.bind]
        | fuelOut => exact absurd h4 (pfParams_ne_fuelOut _ _)
        | ok s4 =>
          simp only [Res.bind]
          cases h5 : Parser.pfBody ts s4.1 with
          | err e => simp [Res.bind]
          | fuelOut => exact absurd h5 (pfBody_ne_fuelOut _ _)
          | ok s5 =>
            simp only [Res.bind]
            simp [Pure.pure]

theorem parse_function_err (ts : List Token) (start : Nat) (e : PErr)
    (h : Parser.parse_function ts start = Res.err e) : errCondition e := by
  unfold Parser.parse_function at h
  cases h1 : Parser.pfSync ts start with
  | err e2 =>
    rw [h1] at h
    simp only [Bind.bind, Res.bind] at h
    injection h with hx
    subst hx
    exact pfSync_err _ _ _ h1
  | fuelOut => exact absurd h1 (pfSync_ne_fuelOut _ _)
  | ok s1 =>
    rw [h1] at h
    simp only [Bind.bind, Res.bind] at h
    cases h2 : Parser.pfRet ts s1.2 with
    | err e2 =>
      rw [h2] at h
      simp only [Res.bind] at h
      injection h with hx
      subst hx
      exact pfRet_err _ _ _ h2
    | fuelOut => exact absurd h2 (pfRet_ne_fuelOut _ _)
    | ok s2 =>
      rw [h2] at h
      simp only [Res.bind] at h
      cases h3 : Parser.pfName ts s2.2 with
      | err e2 =>
        rw [h3] at h
        simp only [Res.bind] at h
        injection h with hx
        subst hx
        exact pfName_err _ _ _ h3
      | fuelOut => exact absurd h3 (pfName_ne_fuelOut _ _)
      | ok s3 =>
        rw [h3] at h
        simp only [Res.bind] at h
        cases h4 : Parser.pfParams ts s3.2 with
        | err e2 =>
          rw [h4] at h
          simp only [Res.bind] at h
          injection h with hx
          subst hx
          exact pfParams_err _ _ _ h4
        | fuelOut => exact absurd h4 (pfParams_ne_fuelOut _ _)
        | ok s4 =>
          rw [h4] at h
          simp only [Res.bind] at h
          cases h5 : Parser.pfBody ts s4.1 with
          | err e2 =>
            exact absurd h5 (pfBody_ne_err _ _ _)
          | fuelOut => exact absurd h5 (pfBody_ne_fuelOut _ _)
          | ok s5 =>
            rw [h5] at h
            simp only [Res.bind] at h
            simp [Pure.pure] at h

theorem parse_function_mono (ts : List Token) (start : Nat)
    (r : Nat × Function AStmt) (h : Parser.parse_function ts start = Res.ok r) :
    start + 1 ≤ r.1 := by
  unfold Parser.parse_function at h
  cases h1 : Parser.pfSync ts start with
  | err e2 =>
    rw [h1] at h
    simp only [Bind.bind, Res.bind] at h
    cases h
  | fuelOut => exact absurd h1 (pfSync_ne_fuelOut _ _)
  | ok s1 =>
    rw [h1] at h
    simp only [Bind.bind, Res.bind] at h
    cases h2 : Parser.pfRet ts s1.2 with
    | err e2 =>
      rw [h2] at h
      simp only [Res.bind] at h
      cases h
    | fuelOut => exact absurd h2 (pfRet_ne_fuelOut _ _)
    | ok s2 =>
      rw [h2] at h
      simp only [Res.bind] at h
      cases h3 : Parser.pfName ts s2.2 with
      | err e2 =>
        rw [h3] at h
        simp only [Res.bind] at h
        cases h
      | fuelOut => exact absurd h3 (pfName_ne_fuelOut _ _)
      | ok s3 =>
        rw [h3] at h
        simp only [Res.bind] at h
        cases h4 : Parser.pfParams ts s3.2 with
        | err e2 =>
          rw [h4] at h
          simp only [Res.bind] at h
          cases h
        | fuelOut => exact absurd h4 (pfParams_ne_fuelOut _ _)
        | ok s4 =>
          rw [h4] at h
          simp only [Res.bind] at h
          cases h5 : Parser.pfBody ts s4.1 with
          | err e2 =>
            exact absurd h5 (pfBody_ne_err _ _ _)
          | fuelOut => exact absurd h5 (pfBody_ne_fuelOut _ _)
          | ok s5 =>
            rw [h5] at h
            simp only [Res.bind] at h
            simp only [Pure.pure] at h
            injection h with hx
            have hm1 := pfSync_mono _ _ _ h1
            have hm2 := pfRet_mono _ _ _ h2
            have hm3 := pfName_mono _ _ _ h3
            have hm4 := pfParams_mono _ _ _ h4
            have hm5 := pfBody_mono _ _ _ h5
            have hr : r.1 = s5.1 := by rw [← hx]
            omega


theorem buildLoop_succ (f : Nat) (ts : List Token) (i : Nat)
    (ast : Parser.Ast) (ctx : Parser.ACtx) :
    Parser.buildLoop (f + 1) ts i ast ctx =
    if i < ts.length then
      if (Parser.tokAt ts i).type = TokenType.TYPE ∧ i + 1 < ts.length
         ∧ (Parser.tokAt ts (i + 1)).type = TokenType.IDENTIFIER then
        match TypeInfo.parse (Parser.tokAt ts i).value with
        | .ok ti =>
          Parser.buildLoop f ts (i + 3)
            { ast with
              vars := dput (Parser.tokAt ts (i + 1)).value
                (Variable.mk (Parser.tokAt ts (i + 1)).value ti) ast.vars }
            { ctx with
              vars := dput (Parser.tokAt ts (i + 1)).value
                (Variable.mk (Parser.tokAt ts (i + 1)).value ti) ctx.vars }
        | .err e => .err e
        | .fuelOut => .fuelOut
      else if (Parser.tokAt ts i).type = TokenType.KEYWORD
         ∧ (Parser.tokAt ts i).value = lit ("function") then
        match Parser.parse_function ts i with
        | .ok r =>
          Parser.buildLoop f ts r.1
            { ast with functions := dput r.2.name r.2 ast.functions }
            { ctx with functions := dput r.2.name r.2 ctx.functions }
        | .err e => .err e
        | .fuelOut => .fuelOut
      else if (Parser.tokAt ts i).type = TokenType.IDENTIFIER ∧ i + 1 < ts.length
         ∧ (Parser.tokAt ts (i + 1)).type = TokenType.OPERATOR
         ∧ (Parser.tokAt ts (i + 1)).value = lit ("=") then
        match Parser.topExprLoop (ts.length + 1) ts (i + 2) [] with
        | .ok r =>
          Parser.buildLoop f ts (r.1 + 1)
            { ast with statements :=
                ast.statements ++ [((Parser.tokAt ts i).value, Parser.tokens_to_expression r.2)] }
            ctx
        | .err e => .err e
        | .fuelOut => .fuelOut
      else Parser.buildLoop f ts (i + 1) ast ctx
    else .ok (ast, ctx) := rfl

theorem buildLoop_ne_fuelOut : ∀ fuel ts i ast ctx, ts.length - i < fuel →
    Parser.buildLoop fuel ts i ast ctx ≠ Res.fuelOut := by
  intro fuel ts i ast ctx
  induction fuel, ts, i, ast, ctx using Parser.buildLoop.induct with
  | case1 ts i ast ctx hcond =>
    intro h
    exact absurd h (Nat.not_lt_zero _)
  | case2 ts i ast ctx hcond f hvar ti hok ih =>
    intro h
    rw [buildLoop_succ, if_pos hcond, if_pos hvar]
    simp only [hok]
    apply ih
    omega
  | case3 ts i ast ctx hcond f hvar e herr =>
    intro h
    rw [buildLoop_succ, if_pos hcond, if_pos hvar]
    simp only [herr]
    simp
  | case4 ts i ast ctx hcond f hvar hfo =>
    exact absurd hfo (TypeInfo_parse_ne_fuelOut _)
  | case5 ts i ast ctx hcond f hvar hfun r hok ih =>
    intro h
    rw [buildLoop_succ, if_pos hcond, if_neg hvar, if_pos hfun]
    simp only [hok]
    apply ih
    have hm := parse_function_mono _ _ _ hok
    omega
  | case6 ts i ast ctx hcond f hvar hfun e herr =>
    intro h
    rw [buildLoop_succ, if_pos hcond, if_neg hvar, if_pos hfun]
    simp only [herr]
    simp
  | case7 ts i ast ctx hcond f hvar hfun hfo =>
    exact absurd hfo (parse_function_ne_fuelOut _ _)
  | case8 ts i ast ctx hcond f hvar hfun hassign r hok ih =>
    intro h
    rw [buildLoop_succ, if_pos hcond, if_neg hvar, if_neg hfun, if_pos hassign]
    simp only [hok]
    apply ih
    have hm := topExprLoop_mono _ _ _ _ _ hok
    omega
  | case9 ts i ast ctx hcond f hvar hfun hassign e herr =>
    exact absurd herr (topExprLoop_ne_err _ _ _ _ _)
  | case10 ts i ast ctx hcond f hvar hfun hassign hfo =>
    exact absurd hfo (topExprLoop_ne_fuelOut _ _ _ _ (by omega))
  | case11 ts i ast ctx hcond f hvar hfun hassign ih =>
    intro h
    rw [buildLoop_succ, if_pos hcond, if_neg hvar, if_neg hfun, if_neg hassign]
    apply ih
    omega
  | case12 fuel ts i ast ctx hcond =>
    intro h
    unfold Parser.buildLoop
    rw [if_neg hcond]
    simp

theorem buildLoop_err : ∀ fuel ts i ast ctx e,
    Parser.buildLoop fuel ts i ast ctx = Res.err e → errCondition e := by
  intro fuel ts i ast ctx
  induction fuel, ts, i, ast, ctx using Parser.buildLoop.induct with
  | case1 ts i ast ctx hcond =>
    intro e h
    unfold Parser.buildLoop at h
    rw [if_pos hcond] at h
    cases h
  | case2 ts i ast ctx hcond f hvar ti hok ih =>
    intro e h
    rw [buildLoop_succ, if_pos hcond, if_pos hvar] at h
    simp only [hok] at h
    exact ih e h
  | case3 ts i ast ctx hcond f hvar e2 herr =>
    intro e h
    rw [buildLoop_succ, if_pos hcond, if_pos hvar] at h
    simp only [herr] at h
    injection h with hx
    subst hx
    exact TypeInfo_parse_err _ _ herr
  | case4 ts i ast ctx hcond f hvar hfo =>
    exact absurd hfo (TypeInfo_parse_ne_fuelOut _)
  | case5 ts i ast ctx hcond f hvar hfun r hok ih =>
    intro e h
    rw [buildLoop_succ, if_pos hcond, if_neg hvar, if_pos hfun] at h
    simp only [hok] at h
    exact ih e h
  | case6 ts i ast ctx hcond f hvar hfun e2 herr =>
    intro e h
    rw [buildLoop_succ, if_pos hcond, if_neg hvar, if_pos hfun] at h
    simp only [herr] at h
    injection h with hx
    subst hx
    exact parse_function_err _ _ _ herr
  | case7 ts i ast ctx hcond f hvar hfun hfo =>
    exact absurd hfo (parse_function_ne_fuelOut _ _)
  | case8 ts i ast ctx hcond f hvar hfun hassign r hok ih =>
    intro e h
    rw [buildLoop_succ, if_pos hcond, if_neg hvar, if_neg hfun, if_pos hassign] at h
    simp only [hok] at h
    exact ih e h
  | case9 ts i ast ctx hcond f hvar hfun hassign e2 herr =>
    exact absurd herr (topExprLoop_ne_err _ _ _ _ _)
  | case10 ts i ast ctx hcond f hvar hfun hassign hfo =>
    exact absurd hfo (topExprLoop_ne_fuelOut _ _ _ _ (by omega))
  | case11 ts i ast ctx hcond f hvar hfun hassign ih =>
    intro e h
    rw [buildLoop_succ, if_pos hcond, if_neg hvar, if_neg hfun, if_neg hassign] at h
    exact ih e h
  | case12 fuel ts i ast ctx hcond =>
    intro e h
    unfold Parser.buildLoop at h
    rw [if_neg hcond] at h
    cases h

theorem buildLoop_ctx_pres : ∀ fuel ts i ast ctx r,
    Parser.buildLoop fuel ts i ast ctx = Res.ok r →
    r.2.sequential_calls = ctx.sequential_calls
      ∧ r.2.call_counter = ctx.call_counter := by
  intro fuel ts i ast ctx
  induction fuel, ts, i, ast, ctx using Parser.buildLoop.induct with
  | case1 ts i ast ctx hcond =>
    intro r h
    unfold Parser.buildLoop at h
    rw [if_pos hcond] at h
    cases h
  | case2 ts i ast ctx hcond f hvar ti hok ih =>
    intro r h
    rw [buildLoop_succ, if_pos hcond, if_pos hvar] at h
    simp only [hok] at h
    exact ih r h
  | case3 ts i ast ctx hcond f hvar e2 herr =>
    intro r h
    rw [buildLoop_succ, if_pos hcond, if_pos hvar] at h
    simp only [herr] at h
    cases h
  | case4 ts i ast ctx hcond f hvar hfo =>
    exact absurd hfo (TypeInfo_parse_ne_fuelOut _)
  | case5 ts i ast ctx hcond f hvar hfun r hok ih =>
    intro r2 h
    rw [buildLoop_succ, if_pos hcond, if_neg hvar, if_pos hfun] at h
    simp only [hok] at h
    exact ih r2 h
  | case6 ts i ast ctx hcond f hvar hfun e2 herr =>
    intro r h
    rw [buildLoop_succ, if_pos hcond, if_neg hvar, if_pos hfun] at h
    simp only [herr] at h
    cases h
  | case7 ts i ast ctx hcond f hvar hfun hfo =>
    exact absurd hfo (parse_function_ne_fuelOut _ _)
  | case8 ts i ast ctx hcond f hvar hfun hassign r hok ih =>
    intro r2 h
    rw [buildLoop_succ, if_pos hcond, if_neg hvar, if_neg hfun, if_pos hassign] at h
    simp only [hok] at h
    exact ih r2 h
  | case9 ts i ast ctx hcond f hvar hfun hassign e2 herr =>
    exact absurd herr (topExprLoop_ne_err _ _ _ _ _)
  | case10 ts i ast ctx hcond f hvar hfun hassign hfo =>
    exact absurd hfo (topExprLoop_ne_fuelOut _ _ _ _ (by omega))
  | case11 ts i ast ctx hcond f hvar hfun hassign ih =>
    intro r h
    rw [buildLoop_succ, if_pos hcond, if_neg hvar, if_neg hfun, if_neg hassign] at h
    exact ih r h
  | case12 fuel ts i ast ctx hcond =>
    intro r h
    unfold Parser.buildLoop at h
    rw [if_neg hcond] at h
    injection h with hx
    subst hx
    exact ⟨rfl, rfl⟩

theorem build_ast_ne_fuelOut (ts : List Token) (ctx : Parser.ACtx) :
    Parser.build_ast ts ctx ≠ Res.fuelOut := by
  unfold Parser.build_ast
  exact buildLoop_ne_fuelOut _ _ _ _ _ (by omega)

theorem build_ast_err (ts : List Token) (ctx : Parser.ACtx) (e : PErr)
    (h : Parser.build_ast ts ctx = Res.err e) : errCondition e := by
  unfold Parser.build_ast at h
  exact buildLoop_err _ _ _ _ _ _ h

theorem build_ast_ctx_pres (ts : List Token) (ctx : Parser.ACtx)
    (r : Parser.Ast × Parser.ACtx) (h : Parser.build_ast ts ctx = Res.ok r) :
    r.2.sequential_calls = ctx.sequential_calls
      ∧ r.2.call_counter = ctx.call_counter := by
  unfold Parser.build_ast at h
  exact buildLoop_ctx_pres _ _ _ _ _ _ h

theorem parse_code_ctx_ne_fuelOut (code : Str) (ctx : Parser.ACtx) :
    Parser.parse_code_ctx code ctx ≠ Res.fuelOut := by
  unfold Parser.parse_code_ctx
  simp only []
  split
  · simp
  · simp
  · rename_i heq
    exact absurd heq (build_ast_ne_fuelOut _ _)

theorem parse_code_ctx_err (code : Str) (ctx : Parser.ACtx) (e : PErr)
    (h : Parser.parse_code_ctx code ctx = Res.err e) : errCondition e := by
  unfold Parser.parse_code_ctx at h
  simp only [] at h
  split at h
  · cases h
  · rename_i e2 heq
    injection h with hx
    subst hx
    exact build_ast_err _ _ _ heq
  · cases h

theorem parse_code_ctx_seq_pres (code : Str) (ctx : Parser.ACtx)
    (r : Str × Parser.ACtx) (h : Parser.parse_code_ctx code ctx = Res.ok r) :
    r.2.sequential_calls = ctx.sequential_calls := by
  unfold Parser.parse_code_ctx at h
  simp only [] at h
  split at h
  · rename_i r2 heq
    injection h with hx
    subst hx
    have := build_ast_ctx_pres _ _ _ heq
    simp only [Parser.generate_verilog]
    exact this.1
  · cases h
  · cases h

theorem parse_code_ne_fuelOut (code : Str) :
    Parser.parse_code code ≠ Res.fuelOut := by
  unfold Parser.parse_code
  split
  · simp
  · simp
  · rename_i heq
    exact absurd heq (parse_code_ctx_ne_fuelOut _ _)

theorem parse_code_err (code : Str) (e : PErr)
    (h : Parser.parse_code code = Res.err e) : errCondition e := by
  unfold Parser.parse_code at h
  split at h
  · cases h
  · rename_i e2 heq
    injection h with hx
    subst hx
    exact parse_code_ctx_err _ _ _ heq
  · cases h

theorem generate_verilog_noinst_eq (ast : Parser.Ast) (ctx : Parser.ACtx)
    (h : ctx.sequential_calls = []) :
    Parser.generate_verilog ast ctx = Parser.generate_verilog_noinst ast ctx := by
  unfold Parser.generate_verilog Parser.generate_verilog_noinst
  rw [h]
  simp [instanceSection, concatMap]



theorem syncModeOf_of_lit (v : Str) (h : isSyncLit v = true) :
    syncModeOf v = Res.ok (if v = lit ("concurrent") then SyncMode.concurrent
                           else SyncMode.sequential) := by
  unfold isSyncLit at h
  simp only [Bool.or_eq_true, decide_eq_true_eq] at h
  rcases h with h | h <;> subst h <;> decide

theorem syncModeOf_of_not_lit (v : Str) (h : isSyncLit v = false) :
    syncModeOf v = Res.err (.badSync v) := by
  unfold isSyncLit at h
  simp only [Bool.or_eq_false_iff, decide_eq_false_iff_not] at h
  unfold syncModeOf
  simp [h.1, h.2]

theorem parseWithSync_isErr (tp : Str) (sync : Option SyncMode) :
    (TypeInfo.parseWithSync tp sync).isErr
      = (containsChar '.' tp
         && (match splitOn (lit (".")) tp with
             | [_, w] => (pyInt w).isNone
             | _ => true)) := by
  unfold TypeInfo.parseWithSync
  by_cases h : containsChar '.' tp = true
  · rw [if_pos h, h]
    simp only [Bool.true_and]
    cases hsp : splitOn (lit (".")) tp with
    | nil => simp [Res.isErr]
    | cons b rest =>
      cases rest with
      | nil => simp [Res.isErr]
      | cons w rest2 =>
        cases rest2 with
        | nil => cases hw : pyInt w <;> simp [Res.isErr, hw]
        | cons c rest3 => simp [Res.isErr]
  · rw [if_neg h]
    simp only [Bool.not_eq_true] at h
    rw [h]
    simp [Res.isErr]

theorem TypeInfo_parse_isErr (s : Str) :
    (TypeInfo.parse s).isErr = typeBad s := by
  unfold TypeInfo.parse typeBad
  simp only []
  by_cases hlen : 1 < (splitOn (lit ("::")) s).length
  · rw [if_pos hlen]
    have h1 : decide (1 < (splitOn (lit ("::")) s).length) = true := decide_eq_true hlen
    by_cases hsync : isSyncLit ((splitOn (lit ("::")) s).getD 1 []) = true
    · rw [syncModeOf_of_lit _ hsync]
      rw [parseWithSync_isErr]
      rw [h1, hsync]
      simp
    · have hs : isSyncLit ((splitOn (lit ("::")) s).getD 1 []) = false := by
        cases hb : isSyncLit ((splitOn (lit ("::")) s).getD 1 [])
        · rfl
        · exact absurd hb hsync
      rw [syncModeOf_of_not_lit _ hs]
      rw [hs, h1]
      simp [Res.isErr]
  · rw [if_neg hlen]
    rw [parseWithSync_isErr]
    have h1 : decide (1 < (splitOn (lit ("::")) s).length) = false := decide_eq_false hlen
    rw [h1]
    simp

/-! ## The claim theorems -/

set_option maxRecDepth 40000 in
/-- C3 (confirmed): on the specification's end-to-end example (an 8-bit
variable y, a sequential 8-bit function inc, and the call y = inc(y)) the
compiled output contains the inc submodule header, an 8-bit input port x,
an 8-bit output register result, the inc_inst_0 instantiation header, the
port binding .x(y), and the call site rewritten to inc_inst_0_result. -/
theorem spec_example_output_contains_blocks :
    containsSub (lit ("module inc(")) outInc = true
    ∧ containsSub (lit ("input [7:0] x")) outInc = true
    ∧ containsSub (lit ("output reg [7:0] result")) outInc = true
    ∧ containsSub (lit ("inc inc_inst_0 (")) outInc = true
    ∧ containsSub (lit (".x(y)")) outInc = true
    ∧ containsSub (lit ("y = inc_inst_0_result")) outInc = true :=
  ⟨by decide, by decide, by decide, by decide, by decide, by decide⟩

set_option maxRecDepth 40000 in
/-- C1 (code_bug): the call resolver reads the shared call counter but
never increments it, so two sequential calls to multiply both mint the
instance name multiply_inst_0: the counter stays 0, both call sites are
rewritten to multiply_inst_0_result, and the two pending records carry
the same (not distinct) instance name. -/
theorem sequential_call_counter_never_advances :
    callOne.1 = lit ("multiply_inst_0_result")
    ∧ callTwo.1 = lit ("multiply_inst_0_result")
    ∧ callOne.2.call_counter = 0
    ∧ callTwo.2.call_counter = 0
    ∧ callOne.2.sequential_calls.map (fun r => r.2.1) = [lit ("multiply_inst_0")]
    ∧ callTwo.2.sequential_calls.map (fun r => r.2.1)
        = [lit ("multiply_inst_0"), lit ("multiply_inst_0")] :=
  ⟨by decide, by decide, by decide, by decide, by decide, by decide⟩

set_option maxRecDepth 40000 in
/-- C5 (code_bug): nothing resets the context between parse_and_convert
calls on the same object: after compiling srcInc once the pending list
still holds one record, a second compile of the same source emits the
inc_inst_0 instance section twice (the pending list having grown to two
records), and the two outputs are not byte-identical. -/
theorem context_persists_across_compiles :
    outInc2 ≠ outInc
    ∧ countSub (lit ("// Sequential function instance: inc_inst_0")) outInc = 1
    ∧ countSub (lit ("// Sequential function instance: inc_inst_0")) outInc2 = 2
    ∧ ctxInc.sequential_calls.length = 1
    ∧ ctxInc2.sequential_calls.length = 2 :=
  ⟨by decide, by decide, by decide, by decide, by decide⟩

set_option maxRecDepth 40000 in
/-- C2 (corrected): every error parse_code raises carries one of the
conditions of errCondition (unknown sync literal, width rejected by
int(...), a type part with two or more dots, missing function name), the
pipeline never runs out of fuel, a type string is rejected exactly when
typeBad holds, and each of the four error payloads is reachable from a
concrete source.  The original claim's non-negative-integer width
requirement is corrected to int()-acceptance: see the counterexample. -/
theorem compile_error_characterization :
    (∀ code e, Parser.parse_code code = Res.err e → errCondition e)
    ∧ (∀ code, Parser.parse_code code ≠ Res.fuelOut)
    ∧ (∀ s, (TypeInfo.parse s).isErr = typeBad s)
    ∧ Parser.parse_code (lit ("function ;")) = Res.err PErr.missingFuncName
    ∧ Parser.parse_code (lit ("int.8::zzz x;")) = Res.err (PErr.badSync (lit ("zzz")))
    ∧ Parser.parse_code (lit ("int.x y;")) = Res.err (PErr.badInt (lit ("x")))
    ∧ Parser.parse_code (lit ("int.3.5 y;")) = Res.err (PErr.unpack (lit ("int.3.5"))) :=
  ⟨parse_code_err, parse_code_ne_fuelOut, TypeInfo_parse_isErr,
   by decide, by decide, by decide, by decide⟩

set_option maxRecDepth 40000 in
/-- C2 counterexample: the width check is int(...), which accepts the
negative numeral -3; so int.-3 is accepted with width -3 although -3 is
not a valid non-negative integer, and the compile returns normally on a
source the claim says must fail. -/
theorem negative_width_accepted :
    (Parser.parse_code (lit ("int.-3 x;"))).isOk = true
    ∧ nonNegIntStr (lit ("-3")) = false
    ∧ TypeInfo.parse (lit ("int.-3")) = Res.ok ⟨lit ("int"), -3, none⟩ :=
  ⟨by decide, by decide, by decide⟩

/-- C9 (confirmed): the AST builder's scan terminates: with fuel one more
than the token count build_ast never runs out of fuel, a successful
function-declaration parse moves the cursor strictly forward, and a token
matching none of the three productions advances the cursor by exactly one
while consuming one unit of fuel. -/
theorem build_ast_cursor_progress :
    (∀ ts ctx, Parser.build_ast ts ctx ≠ Res.fuelOut)
    ∧ (∀ ts start r, Parser.parse_function ts start = Res.ok r → start + 1 ≤ r.1)
    ∧ (∀ f ts i ast ctx,
        i < ts.length →
        ¬((Parser.tokAt ts i).type = TokenType.TYPE ∧ i + 1 < ts.length
          ∧ (Parser.tokAt ts (i + 1)).type = TokenType.IDENTIFIER) →
        ¬((Parser.tokAt ts i).type = TokenType.KEYWORD
          ∧ (Parser.tokAt ts i).value = lit ("function")) →
        ¬((Parser.tokAt ts i).type = TokenType.IDENTIFIER ∧ i + 1 < ts.length
          ∧ (Parser.tokAt ts (i + 1)).type = TokenType.OPERATOR
          ∧ (Parser.tokAt ts (i + 1)).value = lit ("=")) →
        Parser.buildLoop (f + 1) ts i ast ctx = Parser.buildLoop f ts (i + 1) ast ctx) := by
  refine ⟨build_ast_ne_fuelOut, parse_function_mono, ?_⟩
  intro f ts i ast ctx hi h1 h2 h3
  rw [buildLoop_succ, if_pos hi, if_neg h1, if_neg h2, if_neg h3]

/-- C10 (confirmed): the token pipeline's expression conversion is the
identity, a fresh Parser context starts with no pending sequential calls,
parse_code_ctx returns the pending list unchanged (nothing ever appends
to it), and with an empty pending list generate_verilog emits exactly the
instance-free output. -/
theorem token_pipeline_emits_no_instances :
    (∀ e, Parser.convert_expression e = e)
    ∧ Parser.actx0.sequential_calls = []
    ∧ (∀ code ctx r, Parser.parse_code_ctx code ctx = Res.ok r →
        r.2.sequential_calls = ctx.sequential_calls)
    ∧ (∀ ast ctx, ctx.sequential_calls = [] →
        Parser.generate_verilog ast ctx = Parser.generate_verilog_noinst ast ctx) :=
  ⟨fun _ => rfl, rfl, parse_code_ctx_seq_pres, generate_verilog_noinst_eq⟩

/-- C4 (confirmed): the function-declaration sub-grammar, stage by stage:
a `::` delimiter token followed by an identifier sets the declared sync
mode and moves past both (when the identifier is a recognized literal);
otherwise the default is concurrent; an optional TYPE token becomes the
return type; the function-name identifier is mandatory and its absence
raises the missing-name error; in the parameter list a TYPE followed by
an IDENTIFIER appends that parameter (consuming an optional comma), while
a TYPE not followed by an IDENTIFIER is dropped without error, the
accumulator left unchanged. -/
theorem parse_function_subgrammar :
    (∀ ts i m,
        (i + 2 < ts.length ∧ (Parser.tokAt ts (i + 1)).type = TokenType.DELIMITER
          ∧ (Parser.tokAt ts (i + 1)).value = lit ("::")
          ∧ (Parser.tokAt ts (i + 2)).type = TokenType.IDENTIFIER) →
        syncModeOf (Parser.tokAt ts (i + 2)).value = Res.ok m →
        Parser.pfSync ts i = Res.ok (m, i + 3))
    ∧ (∀ ts i, ¬(i + 2 < ts.length ∧ (Parser.tokAt ts (i + 1)).type = TokenType.DELIMITER
          ∧ (Parser.tokAt ts (i + 1)).value = lit ("::")
          ∧ (Parser.tokAt ts (i + 2)).type = TokenType.IDENTIFIER) →
        Parser.pfSync ts i = Res.ok (SyncMode.concurrent, i + 1))
    ∧ (∀ ts i ti, (i < ts.length ∧ (Parser.tokAt ts i).type = TokenType.TYPE) →
        TypeInfo.parse (Parser.tokAt ts i).value = Res.ok ti →
        Parser.pfRet ts i = Res.ok (some ti, i + 1))
    ∧ (∀ ts i, ¬(i < ts.length ∧ (Parser.tokAt ts i).type = TokenType.TYPE) →
        Parser.pfRet ts i = Res.ok (none, i))
    ∧ (∀ ts i, ¬(i < ts.length ∧ (Parser.tokAt ts i).type = TokenType.IDENTIFIER) →
        Parser.pfName ts i = Res.err PErr.missingFuncName)
    ∧ (∀ ts i, (i < ts.length ∧ (Parser.tokAt ts i).type = TokenType.IDENTIFIER) →
        Parser.pfName ts i = Res.ok ((Parser.tokAt ts i).value, i + 1))
    ∧ (∀ f ts i acc ti,
        (i < ts.length ∧ ¬((Parser.tokAt ts i).type = TokenType.DELIMITER
          ∧ (Parser.tokAt ts i).value = lit (")"))) →
        (Parser.tokAt ts i).type = TokenType.TYPE →
        TypeInfo.parse (Parser.tokAt ts i).value = Res.ok ti →
        (i + 1 < ts.length ∧ (Parser.tokAt ts (i + 1)).type = TokenType.IDENTIFIER) →
        Parser.pfParamsLoop (f + 1) ts i acc
          = Parser.pfParamsLoop f ts
              (if i + 2 < ts.length ∧ (Parser.tokAt ts (i + 2)).type = TokenType.DELIMITER
                  ∧ (Parser.tokAt ts (i + 2)).value = lit (",")
               then i + 3 else i + 2)
              (acc ++ [⟨(Parser.tokAt ts (i + 1)).value, ti⟩]))
    ∧ (∀ f ts i acc ti,
        (i < ts.length ∧ ¬((Parser.tokAt ts i).type = TokenType.DELIMITER
          ∧ (Parser.tokAt ts i).value = lit (")"))) →
        (Parser.tokAt ts i).type = TokenType.TYPE →
        TypeInfo.parse (Parser.tokAt ts i).value = Res.ok ti →
        ¬(i + 1 < ts.length ∧ (Parser.tokAt ts (i + 1)).type = TokenType.IDENTIFIER) →
        Parser.pfParamsLoop (f + 1) ts i acc
          = Parser.pfParamsLoop f ts
              (if i + 1 < ts.length ∧ (Parser.tokAt ts (i + 1)).type = TokenType.DELIMITER
                  ∧ (Parser.tokAt ts (i + 1)).value = lit (",")
               then i + 2 else i + 1)
              acc) := by
  refine ⟨?_, ?_, ?_, ?_, ?_, ?_, ?_, ?_⟩
  · intro ts i m hcond hm
    unfold Parser.pfSync
    rw [if_pos hcond]
    simp only [hm]
  · intro ts i hcond
    unfold Parser.pfSync
    rw [if_neg hcond]
  · intro ts i ti hcond hok
    unfold Parser.pfRet
    rw [if_pos hcond]
    simp only [hok]
  · intro ts i hcond
    unfold Parser.pfRet
    rw [if_neg hcond]
  · intro ts i hcond
    unfold Parser.pfName
    rw [if_neg hcond]
  · intro ts i hcond
    unfold Parser.pfName
    rw [if_pos hcond]
  · intro f ts i acc ti hcond htype hok hident
    rw [pfParamsLoop_succ, if_pos hcond, if_pos htype]
    simp only [hok]
    rw [if_pos hident]
  · intro f ts i acc ti hcond htype hok hident
    rw [pfParamsLoop_succ, if_pos hcond, if_pos htype]
    simp only [hok]
    rw [if_neg hident]

/-- Witness for C6: the concrete type strings int.8::sequential, int.8
and int round-trip through TypeInfo.parse with the width and sync mode
the strings spell out, defaulting to width 32 and no sync mode. -/
theorem TypeInfo_parse_roundtrip_w :
    (∀ c ∈ lit ("int"), c ≠ '.' ∧ c ≠ ':')
    ∧ lit ("8") ≠ ([] : Str)
    ∧ (∀ c ∈ lit ("8"), c.isDigit = true)
    ∧ (TypeInfo.parse (lit ("int") ++ '.' :: (lit ("8") ++ ':' :: ':' :: lit ("sequential")))
        = .ok ⟨lit ("int"), (natOfDigits (lit ("8")) : Int),
               some (if lit ("sequential") = lit ("concurrent") then SyncMode.concurrent
                     else SyncMode.sequential)⟩
       ∧ TypeInfo.parse (lit ("int") ++ '.' :: lit ("8"))
          = .ok ⟨lit ("int"), (natOfDigits (lit ("8")) : Int), none⟩
       ∧ TypeInfo.parse (lit ("int")) = .ok ⟨lit ("int"), 32, none⟩) :=
  ⟨by decide, by decide, by decide,
   TypeInfo_parse_roundtrip (lit ("int")) (lit ("8")) (lit ("sequential"))
     (by decide) (by decide) (by decide) (Or.inr rfl)⟩
